import Mathlib

/-!  Verification development for the bulk song ingestion pipeline of
`server.js` (`POST /songs/bulk`).  The pipeline is shallowly embedded:
the request handler becomes the pure function `bulkImport`, parametrised
over its external collaborators (the string-similarity scorer, the JSON
decoder, the persistence layer's snapshot read and chunk insert, and the
clock), which the source consumes as libraries or network services.
JavaScript numbers touched by the pipeline are rationals, with `none`
standing for `NaN` where `NaN` can arise (`parseFloat` of a non-numeric
string); machine floating point is not otherwise observable here.  -/

namespace WorshipReady

/-- A JSON-like value as it can appear in a request field: `null`, a string,
or some structured (non-string, non-null) value, kept opaque up to a tag.
Numeric and boolean JSON field values play no role in the claims and are
not modelled. -/
inductive JValue where
  | jnull : JValue
  | jstr : String → JValue
  | jobj : Nat → JValue
deriving DecidableEq, Repr

/-- JS truthiness of a possibly-absent field value (`none` = `undefined`):
`undefined`, `null` and `""` are falsy, everything else modelled is truthy. -/
def truthyV : Option JValue → Bool
  | none => false
  | some .jnull => false
  | some (.jstr s) => !s.isEmpty
  | some (.jobj _) => true

/-- JS truthiness of a possibly-absent string field. -/
def truthyS : Option String → Bool
  | none => false
  | some s => !s.isEmpty

/-- JS `a || b` on string-valued fields (first operand if truthy, else second). -/
def jsOrS (a b : Option String) : Option String := if truthyS a then a else b

/-- JS `a ?? b` (nullish coalescing) on field values. -/
def jsCoalesce (a b : Option JValue) : Option JValue :=
  match a with
  | none => b
  | some .jnull => b
  | some v => some v

/-- JS `a || d` where `d` is a non-empty default string (`raw.created_by || "System"`). -/
def orDefault (a : Option String) (d : String) : String :=
  match a with
  | none => d
  | some s => if s.isEmpty then d else s

/-- Numeric value of a list of decimal digit characters. -/
def digitsToNat (ds : List Char) : Nat := ds.foldl (fun a c => 10 * a + (c.toNat - 48)) 0

/-- Optional sign in front of a number literal. -/
def signSplit (cs : List Char) : ℚ × List Char :=
  match cs with
  | '-' :: r => (-1, r)
  | '+' :: r => (1, r)
  | _ => (1, cs)

/-- Exponent suffix of a number literal (`e`/`E` already consumed): applied only
when at least one digit follows, as in JS where `parseFloat "1e"` is `1`. -/
def applyExp (m : ℚ) (cs : List Char) : ℚ :=
  let p :=
    match cs with
    | '-' :: r => ((-1 : ℤ), r)
    | '+' :: r => ((1 : ℤ), r)
    | _ => ((1 : ℤ), cs)
  let ed := p.2.takeWhile Char.isDigit
  if ed.isEmpty then m else m * (10 : ℚ) ^ (p.1 * (digitsToNat ed : ℤ))

/-- JS `parseFloat`: skip leading whitespace, read the longest decimal literal
(optional sign, digits, optional fraction, optional exponent), ignore trailing
garbage; `none` models the `NaN` returned when no literal is found.
`Infinity` literals are outside the model. -/
def parseFloat (s : String) : Option ℚ :=
  let cs := s.toList.dropWhile Char.isWhitespace
  let sp := signSplit cs
  let ip := sp.2.takeWhile Char.isDigit
  let cs2 := sp.2.dropWhile Char.isDigit
  let fr :=
    match cs2 with
    | '.' :: r => (r.takeWhile Char.isDigit, r.dropWhile Char.isDigit)
    | _ => ([], cs2)
  if ip.isEmpty && fr.1.isEmpty then none
  else
    let mant : ℚ := sp.1 * ((digitsToNat ip : ℚ) + (digitsToNat fr.1 : ℚ) / 10 ^ fr.1.length)
    match fr.2 with
    | 'e' :: r => some (applyExp mant r)
    | 'E' :: r => some (applyExp mant r)
    | _ => some mant

/-- JS `Math.min(1, x)` with `NaN` propagation (`none` = `NaN`). -/
def jsMin1 (x : Option ℚ) : Option ℚ := x.map (fun q => if q ≤ 1 then q else 1)

/-- JS `Math.max(0, x)` with `NaN` propagation (`none` = `NaN`). -/
def jsMax0 (x : Option ℚ) : Option ℚ := x.map (fun q => if q ≤ 0 then 0 else q)

/-- `Math.max(0, Math.min(1, parseFloat(req.query.similarity ?? "0.8")))`. -/
def thresholdOf (q : Option String) : Option ℚ := jsMax0 (jsMin1 (parseFloat (q.getD "0.8")))

/-- JS `score >= t` where `t` may be `NaN` (`none`): any comparison with `NaN`
is false. -/
def simGe (score : ℚ) (t : Option ℚ) : Bool :=
  match t with
  | some q => decide (q ≤ score)
  | none => false

/-- One element of the bulk payload, with both accepted key spellings and the
optional provenance fields.  `none` is an absent key. -/
structure RawSong where
  song_name : Option String := none
  songName : Option String := none
  main_stanza : Option JValue := none
  mainStanza : Option JValue := none
  stanzas : Option JValue := none
  created_at : Option String := none
  last_updated_at : Option String := none
  created_by : Option String := none
  last_updated_by : Option String := none
deriving DecidableEq, Repr

/-- `raw.song_name || raw.songName`. -/
def normName (raw : RawSong) : Option String := jsOrS raw.song_name raw.songName

/-- `raw.main_stanza ?? raw.mainStanza`. -/
def normMain (raw : RawSong) : Option JValue := jsCoalesce raw.main_stanza raw.mainStanza

/-- The structural check of the scan loop: name, primary block and stanzas all
truthy after alias normalisation. -/
def validRecord (raw : RawSong) : Bool :=
  truthyS (normName raw) && truthyV (normMain raw) && truthyV raw.stanzas

/-- A row as submitted to the songs table. -/
structure Row where
  song_name : String
  main_stanza : JValue
  stanzas : JValue
  created_at : String
  last_updated_at : String
  created_by : String
  last_updated_by : String
deriving DecidableEq, Repr

/-- Status of one outcome record, with its status-specific payload. -/
inductive Status where
  | invalid (reason : String)
  | skipped (conflictWith : String) (similarityThreshold : Option ℚ)
  | created (song_id : Nat)
  | failed (reason : String)
deriving DecidableEq, Repr

def Status.isSkipped : Status → Bool
  | .skipped _ _ => true
  | _ => false

def Status.isInvalid : Status → Bool
  | .invalid _ => true
  | _ => false

def Status.isFailed : Status → Bool
  | .failed _ => true
  | _ => false

def Status.isCreated : Status → Bool
  | .created _ => true
  | _ => false

/-- One per-record outcome as pushed onto `results`. -/
structure Outcome where
  index : Nat
  song_name : Option String
  status : Status
deriving DecidableEq, Repr

/-- Mutable state of the scan loop: the three arrays the loop pushes onto. -/
structure ScanState where
  results : List Outcome
  toInsert : List (Nat × Row)
  acceptedNames : List String
deriving DecidableEq, Repr

/-- The external collaborators of the pipeline: the similarity scorer
(`stringSimilarity.compareTwoStrings`), the JSON decoder (`JSON.parse`,
`.error` = thrown exception), and the clock (`new Date().toISOString()`). -/
structure Env where
  sim : String → String → ℚ
  jsonParse : String → Except String JValue
  now : String

/-- `asObj = (v) => (typeof v === "string" ? JSON.parse(v) : v)`. -/
def asObj (jp : String → Except String JValue) : JValue → Except String JValue
  | .jstr s => jp s
  | v => .ok v

/-- Per-request controls and snapshot, fixed before the scan starts. -/
structure Ctx where
  env : Env
  allowSimilar : Bool
  similarity : Option ℚ
  existingNames : List String

/-- `blockedBySimilarity` for a candidate name `s`, given the accepted names so
far: `!allowSimilar && (conflictExisting || conflictInPayload)`, where each
conflict is a `.some` scan of the comparison set at the clamped threshold. -/
def blockedAt (c : Ctx) (accepted : List String) (s : String) : Bool :=
  let conflictExisting := c.existingNames.any fun n => simGe (c.env.sim s n) c.similarity
  let conflictInPayload := accepted.any fun n => simGe (c.env.sim s n) c.similarity
  !c.allowSimilar && (conflictExisting || conflictInPayload)

/-- The row object built for an accepted record; a `JSON.parse` exception in
either `asObj` call aborts with `.error` (the first one evaluated wins, as in
the source's object literal). -/
def rowOf (env : Env) (raw : RawSong) (s : String) : Except String Row :=
  match asObj env.jsonParse ((normMain raw).getD .jnull) with
  | .error e => .error e
  | .ok mo =>
    match asObj env.jsonParse (raw.stanzas.getD .jnull) with
    | .error e => .error e
    | .ok so =>
      .ok ⟨s, mo, so, orDefault raw.created_at env.now,
        orDefault raw.last_updated_at env.now,
        orDefault raw.created_by "System", orDefault raw.last_updated_by ""⟩

/-- One iteration of the scan loop body for index `i`: validation, similarity
gate, row build (where a `JSON.parse` exception aborts with `.error`), and the
pushes onto `results` / `toInsert` / `acceptedNames`. -/
def scanStep (c : Ctx) (i : Nat) (raw : RawSong) (st : ScanState) : Except String ScanState :=
  let song_name := normName raw
  let main_stanza := normMain raw
  let stanzas := raw.stanzas
  if !truthyS song_name || !truthyV main_stanza || !truthyV stanzas then
    .ok { st with results := st.results ++ [⟨i, song_name, .invalid "Missing fields"⟩] }
  else
    let s := song_name.getD ""
    if blockedAt c st.acceptedNames s then
      .ok { st with results := st.results ++ [⟨i, song_name, .skipped "similarity" c.similarity⟩] }
    else
      match rowOf c.env raw s with
      | .error e => .error e
      | .ok row =>
        .ok { st with toInsert := st.toInsert ++ [(i, row)],
                      acceptedNames := st.acceptedNames ++ [s] }

/-- The scan loop from index `i` over the remaining payload records. -/
def scanFrom (c : Ctx) : Nat → List RawSong → ScanState → Except String ScanState
  | _, [], st => .ok st
  | i, raw :: rest, st =>
    match scanStep c i raw st with
    | .error e => .error e
    | .ok st1 => scanFrom c (i+1) rest st1

/-- A row as returned by a successful insert (`select("song_id, song_name")`). -/
structure InsertedRow where
  song_id : Nat
  song_name : String
deriving DecidableEq, Repr

/-- The persistence layer's chunk insert, indexed by chunk number: one call per
chunk, whole-chunk success (the returned rows) or whole-chunk error. -/
abbrev DB := Nat → List Row → Except String (List InsertedRow)

/-- `const BATCH = 500`. -/
def BATCH : Nat := 500

/-- The chunk loop: take the next `BATCH` entries, insert, pair returned rows
positionally with the chunk on success (`chunk[k]` for `k < data.length`; more
returned rows than submitted would dereference `undefined` and throw), mark the
whole chunk failed on error, and continue with the rest.  `fuel` is a structural
bound, set to the pending length by `insertChunks`; every step consumes at least
one pending entry so the `fuel = 0` branch is never reached from there. -/
def insertGo (db : DB) : Nat → Nat → List (Nat × Row) → Except String (List Outcome × Nat)
  | _, _, [] => .ok ([], 0)
  | 0, _, _ => .ok ([], 0)
  | fuel+1, cIdx, x :: xs =>
    let chunk := (x :: xs).take BATCH
    let rest := (x :: xs).drop BATCH
    match db cIdx (chunk.map (·.2)) with
    | .error msg =>
      match insertGo db fuel (cIdx+1) rest with
      | .error e => .error e
      | .ok (os, n) =>
        .ok ((chunk.map fun e => (⟨e.1, some e.2.song_name, .failed msg⟩ : Outcome)) ++ os, n)
    | .ok data =>
      if data.length ≤ chunk.length then
        match insertGo db fuel (cIdx+1) rest with
        | .error e => .error e
        | .ok (os, n) =>
          .ok (((chunk.zip data).map fun p =>
            (⟨p.1.1, some p.2.song_name, .created p.2.song_id⟩ : Outcome)) ++ os,
            data.length + n)
      else .error "Cannot read properties of undefined"

/-- The whole insert phase over the accepted records. -/
def insertChunks (db : DB) (pending : List (Nat × Row)) : Except String (List Outcome × Nat) :=
  insertGo db pending.length 0 pending

/-- Ordering used by `results.sort((a, b) => a.index - b.index)`. -/
def outLE (a b : Outcome) : Prop := a.index ≤ b.index

instance : DecidableRel outLE := fun a b => Nat.decLe a.index b.index

instance : IsTotal Outcome outLE := ⟨fun a b => Nat.le_total a.index b.index⟩

instance : IsTrans Outcome outLE := ⟨fun _ _ _ h1 h2 => Nat.le_trans h1 h2⟩

/-- `results.sort((a, b) => a.index - b.index)`. -/
def sortByIndex (rs : List Outcome) : List Outcome := List.insertionSort outLE rs

/-- The aggregate counts of the response. -/
structure Summary where
  requested : Nat
  created : Nat
  skipped_conflict : Nat
  invalid : Nat
  failed : Nat
deriving DecidableEq, Repr

/-- The successful response body. -/
structure BulkResponse where
  summary : Summary
  results : List Outcome
deriving DecidableEq, Repr

/-- What the handler sends back: a `jsonError` (the structural 400, or a 500
from the snapshot read / the catch block) or the 200/201 body. -/
inductive HttpOut where
  | err (code : Nat) (msg : String)
  | ok (code : Nat) (resp : BulkResponse)
deriving DecidableEq, Repr

/-- The query-string controls of the endpoint. -/
structure Query where
  allowSimilar : Option String := none
  similarity : Option String := none
deriving DecidableEq, Repr

/-- The request body: a bare array, an object with an array under `songs`, an
object without such an array, or a non-object. -/
inductive ReqBody where
  | arr (xs : List RawSong)
  | objWithSongs (xs : List RawSong)
  | objNoSongs
  | nonObj
deriving DecidableEq, Repr

/-- `Array.isArray(req.body) ? req.body : req.body?.songs`, as an array or not. -/
def payloadOf : ReqBody → Option (List RawSong)
  | .arr xs => some xs
  | .objWithSongs xs => some xs
  | _ => none

/-- A row of the snapshot read (`select("song_id, song_name")`). -/
structure ExistingSong where
  song_id : Nat
  song_name : String
deriving DecidableEq, Repr

/-- The per-request controls and snapshot assembled by the handler:
`allowSimilar = (req.query.allowSimilar ?? "true") === "true"`, the clamped
threshold, and the names of the snapshot rows. -/
def mkCtx (env : Env) (query : Query) (existing : List ExistingSong) : Ctx :=
  ⟨env, (query.allowSimilar.getD "true") == "true", thresholdOf query.similarity,
    existing.map (·.song_name)⟩

/-- The `POST /songs/bulk` handler: payload guard, snapshot read, controls,
scan loop, chunked insert, sort by index, summary and status selection.
A `.error` escaping the scan or chunk loop is the exception reaching the
catch block: `jsonError(res, 500, e.message)`. -/
def bulkImport (env : Env) (fetchSongs : Except String (List ExistingSong)) (db : DB)
    (query : Query) (body : ReqBody) : HttpOut :=
  match payloadOf body with
  | none => .err 400 "Body must be a non-empty array or \x7b songs: [...] \x7d"
  | some payload =>
    if payload.isEmpty then .err 400 "Body must be a non-empty array or \x7b songs: [...] \x7d"
    else
      match fetchSongs with
      | .error e => .err 500 e
      | .ok existing =>
        let c : Ctx := mkCtx env query existing
        match scanFrom c 0 payload ⟨[], [], []⟩ with
        | .error e => .err 500 e
        | .ok st =>
          match insertChunks db st.toInsert with
          | .error e => .err 500 e
          | .ok (insOuts, createdCount) =>
            let results := sortByIndex (st.results ++ insOuts)
            let summary : Summary := ⟨payload.length, createdCount,
              (results.filter fun r => r.status.isSkipped).length,
              (results.filter fun r => r.status.isInvalid).length,
              (results.filter fun r => r.status.isFailed).length⟩
            .ok (if createdCount > 0 then 201 else 200) ⟨summary, results⟩

/-! ### Case analysis of one scan iteration -/

theorem rowOf_name (env : Env) (raw : RawSong) (s : String) (row : Row)
    (h : rowOf env raw s = .ok row) : row.song_name = s := by
  unfold rowOf at h
  cases hm : asObj env.jsonParse ((normMain raw).getD .jnull) with
  | error e => rw [hm] at h; exact absurd h (by simp)
  | ok mo =>
    rw [hm] at h
    cases hs : asObj env.jsonParse (raw.stanzas.getD .jnull) with
    | error e => rw [hs] at h; exact absurd h (by simp)
    | ok so =>
      rw [hs] at h
      cases h
      rfl

theorem scanStep_invalid (c : Ctx) (i : Nat) (raw : RawSong) (st : ScanState)
    (h : validRecord raw = false) :
    scanStep c i raw st =
      .ok { st with results := st.results ++ [⟨i, normName raw, .invalid "Missing fields"⟩] } := by
  have hc : (!truthyS (normName raw) || !truthyV (normMain raw) || !truthyV raw.stanzas) = true := by
    revert h; unfold validRecord
    cases truthyS (normName raw) <;> cases truthyV (normMain raw) <;>
      cases truthyV raw.stanzas <;> simp
  unfold scanStep
  simp [hc]

theorem scanStep_skip (c : Ctx) (i : Nat) (raw : RawSong) (st : ScanState)
    (hv : validRecord raw = true)
    (hb : blockedAt c st.acceptedNames ((normName raw).getD "") = true) :
    scanStep c i raw st =
      .ok { st with results :=
              st.results ++ [⟨i, normName raw, .skipped "similarity" c.similarity⟩] } := by
  simp only [validRecord, Bool.and_eq_true] at hv
  unfold scanStep
  simp [hv.1.1, hv.1.2, hv.2, hb]

theorem scanStep_accept (c : Ctx) (i : Nat) (raw : RawSong) (st : ScanState) (row : Row)
    (hv : validRecord raw = true)
    (hb : blockedAt c st.acceptedNames ((normName raw).getD "") = false)
    (hr : rowOf c.env raw ((normName raw).getD "") = .ok row) :
    scanStep c i raw st =
      .ok { st with toInsert := st.toInsert ++ [(i, row)],
                    acceptedNames := st.acceptedNames ++ [(normName raw).getD ""] } := by
  simp only [validRecord, Bool.and_eq_true] at hv
  unfold scanStep
  simp [hv.1.1, hv.1.2, hv.2, hb, hr]

theorem scanStep_throw (c : Ctx) (i : Nat) (raw : RawSong) (st : ScanState) (e : String)
    (hv : validRecord raw = true)
    (hb : blockedAt c st.acceptedNames ((normName raw).getD "") = false)
    (hr : rowOf c.env raw ((normName raw).getD "") = .error e) :
    scanStep c i raw st = .error e := by
  simp only [validRecord, Bool.and_eq_true] at hv
  unfold scanStep
  simp [hv.1.1, hv.1.2, hv.2, hb, hr]

theorem blockedAt_allowSimilar (c : Ctx) (accepted : List String) (s : String)
    (h : blockedAt c accepted s = true) : c.allowSimilar = false := by
  unfold blockedAt at h
  simp only [Bool.and_eq_true, Bool.not_eq_true'] at h
  exact h.1

/-- Every successful scan iteration either appends exactly one outcome for
index `i` (invalid, or a similarity skip in strict mode), or appends exactly
one accepted entry for index `i` together with its name. -/
theorem scanStep_ok_shape (c : Ctx) (i : Nat) (raw : RawSong) (st st' : ScanState)
    (h : scanStep c i raw st = .ok st') :
    (∃ o : Outcome, o.index = i ∧
        ((o.status = .invalid "Missing fields" ∧ validRecord raw = false) ∨
          (o.status = .skipped "similarity" c.similarity ∧ c.allowSimilar = false)) ∧
        st'.results = st.results ++ [o] ∧ st'.toInsert = st.toInsert ∧
        st'.acceptedNames = st.acceptedNames) ∨
    (∃ row : Row, st'.results = st.results ∧ st'.toInsert = st.toInsert ++ [(i, row)] ∧
        st'.acceptedNames = st.acceptedNames ++ [row.song_name] ∧
        validRecord raw = true ∧ row.song_name = (normName raw).getD "" ∧
        blockedAt c st.acceptedNames row.song_name = false) := by
  cases hv : validRecord raw with
  | false =>
    rw [scanStep_invalid c i raw st hv] at h
    cases h
    exact Or.inl ⟨⟨i, normName raw, .invalid "Missing fields"⟩, rfl, Or.inl ⟨rfl, rfl⟩,
      rfl, rfl, rfl⟩
  | true =>
    cases hb : blockedAt c st.acceptedNames ((normName raw).getD "") with
    | true =>
      rw [scanStep_skip c i raw st hv hb] at h
      cases h
      exact Or.inl ⟨⟨i, normName raw, .skipped "similarity" c.similarity⟩, rfl,
        Or.inr ⟨rfl, blockedAt_allowSimilar c st.acceptedNames _ hb⟩, rfl, rfl, rfl⟩
    | false =>
      cases hr : rowOf c.env raw ((normName raw).getD "") with
      | error e =>
        rw [scanStep_throw c i raw st e hv hb hr] at h
        exact absurd h (by simp)
      | ok row =>
        rw [scanStep_accept c i raw st row hv hb hr] at h
        cases h
        have hn := rowOf_name c.env raw _ row hr
        exact Or.inr ⟨row, rfl, rfl, by rw [hn], rfl, hn, by rw [hn]; exact hb⟩

/-! ### The scan loop as a whole -/

theorem scanFrom_append (c : Ctx) (xs ys : List RawSong) : ∀ (i : Nat) (st : ScanState),
    scanFrom c i (xs ++ ys) st =
      match scanFrom c i xs st with
      | .error e => .error e
      | .ok st1 => scanFrom c (i + xs.length) ys st1 := by
  induction xs with
  | nil => intro i st; simp [scanFrom]
  | cons x rest ih =>
    intro i st
    rw [show scanFrom c i (x :: rest ++ ys) st =
          (match scanStep c i x st with
           | .error e => .error e
           | .ok st1 => scanFrom c (i+1) (rest ++ ys) st1) from rfl]
    cases hs : scanStep c i x st with
    | error e => simp [scanFrom, hs]
    | ok st1 =>
      simp only [scanFrom, hs, ih]
      have harith : i + 1 + rest.length = i + (rest.length + 1) := by omega
      simp [harith, List.length_cons]

/-- A successful scan only appends to the three arrays; the indices it adds
across `results` and `toInsert` are exactly `i, i+1, …` one each; the names it
adds are the names of the rows it accepts; and every outcome it adds is an
invalid report or (in strict mode only) a similarity skip. -/
theorem scanFrom_shape (c : Ctx) : ∀ (xs : List RawSong) (i : Nat) (st st' : ScanState),
    scanFrom c i xs st = .ok st' →
    ∃ δr δt,
      st'.results = st.results ++ δr ∧
      st'.toInsert = st.toInsert ++ δt ∧
      st'.acceptedNames = st.acceptedNames ++ δt.map (fun e => e.2.song_name) ∧
      (δr.map (fun o => o.index) ++ δt.map (fun e => e.1)).Perm (List.range' i xs.length) ∧
      (∀ o ∈ δr, (o.status = .invalid "Missing fields") ∨
        (o.status = .skipped "similarity" c.similarity ∧ c.allowSimilar = false)) := by
  intro xs
  induction xs with
  | nil =>
    intro i st st' h
    cases h
    exact ⟨[], [], by simp, by simp, by simp, by simp, by simp⟩
  | cons x rest ih =>
    intro i st st' h
    rw [show scanFrom c i (x :: rest) st =
          (match scanStep c i x st with
           | .error e => .error e
           | .ok st1 => scanFrom c (i+1) rest st1) from rfl] at h
    cases hs : scanStep c i x st with
    | error e => rw [hs] at h; exact absurd h (by simp)
    | ok st1 =>
      rw [hs] at h
      obtain ⟨δr, δt, hr, ht, ha, hperm, hst⟩ := ih (i+1) st1 st' h
      rcases scanStep_ok_shape c i x st st1 hs with
        ⟨o, ho_idx, ho_st, h1r, h1t, h1a⟩ | ⟨row, h1r, h1t, h1a, _, _, _⟩
      · refine ⟨o :: δr, δt, ?_, ?_, ?_, ?_, ?_⟩
        · rw [hr, h1r]; simp
        · rw [ht, h1t]
        · rw [ha, h1a]
        · simp only [List.map_cons, List.cons_append, List.length_cons, List.range'_succ, ho_idx]
          exact hperm.cons i
        · intro o' ho'
          rcases List.mem_cons.mp ho' with h | h
          · rw [h]
            rcases ho_st with h2 | h2
            · exact Or.inl h2.1
            · exact Or.inr h2
          · exact hst o' h
      · refine ⟨δr, (i, row) :: δt, ?_, ?_, ?_, ?_, hst⟩
        · rw [hr, h1r]
        · rw [ht, h1t]; simp
        · rw [ha, h1a]; simp
        · simp only [List.map_cons, List.length_cons, List.range'_succ]
          exact (List.perm_middle).trans (hperm.cons i)

/-! ### The chunk loop -/

/-- Unfolding equation for one pass of the chunk loop. -/
theorem insertGo_cons (db : DB) (fuel cIdx : Nat) (x : Nat × Row) (xs : List (Nat × Row)) :
    insertGo db (fuel+1) cIdx (x :: xs) =
      match db cIdx (((x :: xs).take BATCH).map (fun e => e.2)) with
      | .error msg =>
        match insertGo db fuel (cIdx+1) ((x :: xs).drop BATCH) with
        | .error e => .error e
        | .ok (os, n) =>
          .ok ((((x :: xs).take BATCH).map
            (fun e => (⟨e.1, some e.2.song_name, .failed msg⟩ : Outcome))) ++ os, n)
      | .ok data =>
        if data.length ≤ ((x :: xs).take BATCH).length then
          match insertGo db fuel (cIdx+1) ((x :: xs).drop BATCH) with
          | .error e => .error e
          | .ok (os, n) =>
            .ok (((((x :: xs).take BATCH).zip data).map fun p =>
              (⟨p.1.1, some p.2.song_name, .created p.2.song_id⟩ : Outcome)) ++ os,
              data.length + n)
        else .error "Cannot read properties of undefined" := rfl

/-- Conditional unfolding: failed chunk, successful recursion. -/
theorem insertGo_cons_err (db : DB) (fuel cIdx : Nat) (x : Nat × Row) (xs : List (Nat × Row))
    (msg : String) (os : List Outcome) (n : Nat)
    (hdbc : db cIdx (((x :: xs).take BATCH).map (fun e => e.2)) = .error msg)
    (hrec : insertGo db fuel (cIdx+1) ((x :: xs).drop BATCH) = .ok (os, n)) :
    insertGo db (fuel+1) cIdx (x :: xs) =
      .ok ((((x :: xs).take BATCH).map
        (fun e => (⟨e.1, some e.2.song_name, .failed msg⟩ : Outcome))) ++ os, n) := by
  rw [insertGo_cons, hdbc, hrec]

/-- Conditional unfolding: successful chunk, successful recursion. -/
theorem insertGo_cons_okk (db : DB) (fuel cIdx : Nat) (x : Nat × Row) (xs : List (Nat × Row))
    (data : List InsertedRow) (os : List Outcome) (n : Nat)
    (hdbc : db cIdx (((x :: xs).take BATCH).map (fun e => e.2)) = .ok data)
    (hle : data.length ≤ ((x :: xs).take BATCH).length)
    (hrec : insertGo db fuel (cIdx+1) ((x :: xs).drop BATCH) = .ok (os, n)) :
    insertGo db (fuel+1) cIdx (x :: xs) =
      .ok (((((x :: xs).take BATCH).zip data).map fun p =>
        (⟨p.1.1, some p.2.song_name, .created p.2.song_id⟩ : Outcome)) ++ os,
        data.length + n) := by
  rw [insertGo_cons, hdbc]
  simp only [if_pos hle, hrec]

/-- Conditional unfolding: failed chunk, failing recursion. -/
theorem insertGo_cons_err_recErr (db : DB) (fuel cIdx : Nat) (x : Nat × Row)
    (xs : List (Nat × Row)) (msg e : String)
    (hdbc : db cIdx (((x :: xs).take BATCH).map (fun e => e.2)) = .error msg)
    (hrec : insertGo db fuel (cIdx+1) ((x :: xs).drop BATCH) = .error e) :
    insertGo db (fuel+1) cIdx (x :: xs) = .error e := by
  rw [insertGo_cons, hdbc, hrec]

/-- Conditional unfolding: successful chunk, failing recursion. -/
theorem insertGo_cons_okk_recErr (db : DB) (fuel cIdx : Nat) (x : Nat × Row)
    (xs : List (Nat × Row)) (data : List InsertedRow) (e : String)
    (hdbc : db cIdx (((x :: xs).take BATCH).map (fun e => e.2)) = .ok data)
    (hle : data.length ≤ ((x :: xs).take BATCH).length)
    (hrec : insertGo db fuel (cIdx+1) ((x :: xs).drop BATCH) = .error e) :
    insertGo db (fuel+1) cIdx (x :: xs) = .error e := by
  rw [insertGo_cons, hdbc]
  simp only [if_pos hle, hrec]

/-- Under whole-chunk semantics (a successful insert returns one row per
submitted row), the chunk loop succeeds and reports outcomes for exactly the
pending indices, in order, each outcome being a creation or a failure. -/
theorem insertGo_ok (db : DB)
    (hdb : ∀ cIdx rows data, db cIdx rows = .ok data → data.length = rows.length) :
    ∀ (fuel cIdx : Nat) (pending : List (Nat × Row)), pending.length ≤ fuel →
    ∃ outs cnt, insertGo db fuel cIdx pending = .ok (outs, cnt) ∧
      outs.map (fun o => o.index) = pending.map (fun e => e.1) ∧
      (∀ o ∈ outs, (∃ id, o.status = .created id) ∨ (∃ m, o.status = .failed m)) := by
  intro fuel
  induction fuel with
  | zero =>
    intro cIdx pending hlen
    have : pending = [] := List.length_eq_zero.mp (Nat.le_zero.mp hlen)
    subst this
    exact ⟨[], 0, rfl, rfl, by simp⟩
  | succ fuel ih =>
    intro cIdx pending hlen
    match pending with
    | [] => exact ⟨[], 0, rfl, rfl, by simp⟩
    | x :: xs =>
      have hrest : ((x :: xs).drop BATCH).length ≤ fuel := by
        simp only [List.length_drop, List.length_cons, BATCH]
        simp only [List.length_cons] at hlen
        omega
      obtain ⟨outs', cnt', hrec, hmap', hst'⟩ := ih (cIdx + 1) ((x :: xs).drop BATCH) hrest
      cases hdbc : db cIdx (((x :: xs).take BATCH).map (fun e => e.2)) with
      | error msg =>
        refine ⟨((x :: xs).take BATCH).map
            (fun e => (⟨e.1, some e.2.song_name, .failed msg⟩ : Outcome)) ++ outs', cnt', ?_, ?_, ?_⟩
        · rw [insertGo_cons, hdbc, hrec]
        · rw [List.map_append, List.map_map, hmap']
          rw [show ((fun o : Outcome => o.index) ∘ fun e : Nat × Row =>
                (⟨e.1, some e.2.song_name, .failed msg⟩ : Outcome)) = fun e : Nat × Row => e.1 from rfl]
          rw [← List.map_append, List.take_append_drop]
        · intro o ho
          rcases List.mem_append.mp ho with h | h
          · obtain ⟨e, _, rfl⟩ := List.mem_map.mp h
            exact Or.inr ⟨msg, rfl⟩
          · exact hst' o h
      | ok data =>
        have hdl : data.length = ((x :: xs).take BATCH).length := by
          have := hdb cIdx (((x :: xs).take BATCH).map (fun e => e.2)) data hdbc
          simpa using this
        refine ⟨(((x :: xs).take BATCH).zip data).map
            (fun p => (⟨p.1.1, some p.2.song_name, .created p.2.song_id⟩ : Outcome)) ++ outs',
            data.length + cnt', ?_, ?_, ?_⟩
        · rw [insertGo_cons, hdbc]
          simp only [if_pos (le_of_eq hdl), hrec]
        · rw [List.map_append, List.map_map, hmap']
          have hzip : (((x :: xs).take BATCH).zip data).map Prod.fst = (x :: xs).take BATCH :=
            List.map_fst_zip _ _ (le_of_eq hdl.symm)
          have h1 : (((x :: xs).take BATCH).zip data).map
              ((fun o : Outcome => o.index) ∘ fun p : (Nat × Row) × InsertedRow =>
                (⟨p.1.1, some p.2.song_name, .created p.2.song_id⟩ : Outcome))
              = ((((x :: xs).take BATCH).zip data).map Prod.fst).map (fun e => e.1) := by
            rw [List.map_map]; rfl
          rw [h1, hzip, ← List.map_append, List.take_append_drop]
        · intro o ho
          rcases List.mem_append.mp ho with h | h
          · obtain ⟨p, _, rfl⟩ := List.mem_map.mp h
            exact Or.inl ⟨p.2.song_id, rfl⟩
          · exact hst' o h

/-- When every chunk insert succeeds with one returned row per submitted row,
`createdCount` is the number of accepted records. -/
theorem insertGo_all_ok (db : DB)
    (hdb : ∀ cIdx rows, ∃ data, db cIdx rows = .ok data ∧ data.length = rows.length) :
    ∀ (fuel cIdx : Nat) (pending : List (Nat × Row)), pending.length ≤ fuel →
    ∃ outs, insertGo db fuel cIdx pending = .ok (outs, pending.length) := by
  intro fuel
  induction fuel with
  | zero =>
    intro cIdx pending hlen
    have : pending = [] := List.length_eq_zero.mp (Nat.le_zero.mp hlen)
    subst this
    exact ⟨[], rfl⟩
  | succ fuel ih =>
    intro cIdx pending hlen
    match pending with
    | [] => exact ⟨[], rfl⟩
    | x :: xs =>
      have hrest : ((x :: xs).drop BATCH).length ≤ fuel := by
        simp only [List.length_drop, List.length_cons, BATCH]
        simp only [List.length_cons] at hlen
        omega
      obtain ⟨outs', hrec⟩ := ih (cIdx + 1) ((x :: xs).drop BATCH) hrest
      obtain ⟨data, hdbc, hdl⟩ := hdb cIdx (((x :: xs).take BATCH).map (fun e => e.2))
      have hdl' : data.length = ((x :: xs).take BATCH).length := by simpa using hdl
      refine ⟨(((x :: xs).take BATCH).zip data).map
          (fun p => (⟨p.1.1, some p.2.song_name, .created p.2.song_id⟩ : Outcome)) ++ outs', ?_⟩
      rw [insertGo_cons, hdbc]
      simp only [if_pos (le_of_eq hdl'), hrec]
      have hcount : data.length + ((x :: xs).drop BATCH).length = (x :: xs).length := by
        rw [hdl']
        have h2 := congrArg List.length (List.take_append_drop BATCH (x :: xs))
        rw [List.length_append] at h2
        exact h2
      rw [hcount]

/-- When every chunk insert fails, every accepted record is reported failed
with the error message, and nothing is counted as created. -/
theorem insertGo_all_fail (db : DB) (msg : String)
    (hdb : ∀ cIdx rows, db cIdx rows = .error msg) :
    ∀ (fuel cIdx : Nat) (pending : List (Nat × Row)), pending.length ≤ fuel →
    insertGo db fuel cIdx pending =
      .ok (pending.map (fun e => (⟨e.1, some e.2.song_name, .failed msg⟩ : Outcome)), 0) := by
  intro fuel
  induction fuel with
  | zero =>
    intro cIdx pending hlen
    have : pending = [] := List.length_eq_zero.mp (Nat.le_zero.mp hlen)
    subst this
    rfl
  | succ fuel ih =>
    intro cIdx pending hlen
    match pending with
    | [] => rfl
    | x :: xs =>
      have hrest : ((x :: xs).drop BATCH).length ≤ fuel := by
        simp only [List.length_drop, List.length_cons, BATCH]
        simp only [List.length_cons] at hlen
        omega
      have key : ((x :: xs).take BATCH).map
            (fun e => (⟨e.1, some e.2.song_name, .failed msg⟩ : Outcome)) ++
          ((x :: xs).drop BATCH).map
            (fun e => (⟨e.1, some e.2.song_name, .failed msg⟩ : Outcome)) =
          (x :: xs).map (fun e => (⟨e.1, some e.2.song_name, .failed msg⟩ : Outcome)) := by
        rw [← List.map_append, List.take_append_drop]
      rw [insertGo_cons, hdb, ih (cIdx + 1) ((x :: xs).drop BATCH) hrest, ← key]

/-- Per-chunk outcome characterisation: every entry of the chunk at chunk
offset `cI` is reported failed with the chunk's error when that chunk's insert
fails, and reported created from one of the chunk's returned rows when it
succeeds. -/
theorem insertGo_chunk_spec (db : DB)
    (hdb : ∀ cIdx rows data, db cIdx rows = .ok data → data.length = rows.length) :
    ∀ (fuel cIdx : Nat) (pending : List (Nat × Row)) (outs : List Outcome) (cnt : Nat),
    pending.length ≤ fuel →
    insertGo db fuel cIdx pending = .ok (outs, cnt) →
    ∀ (cI : Nat), ∀ e ∈ (pending.drop (BATCH * cI)).take BATCH,
      (∀ msg, db (cIdx + cI) (((pending.drop (BATCH * cI)).take BATCH).map (fun y => y.2)) =
          .error msg →
        (⟨e.1, some e.2.song_name, .failed msg⟩ : Outcome) ∈ outs) ∧
      (∀ data, db (cIdx + cI) (((pending.drop (BATCH * cI)).take BATCH).map (fun y => y.2)) =
          .ok data →
        ∃ d ∈ data, (⟨e.1, some d.song_name, .created d.song_id⟩ : Outcome) ∈ outs) := by
  intro fuel
  induction fuel with
  | zero =>
    intro cIdx pending outs cnt hlen _ cI e he
    have : pending = [] := List.length_eq_zero.mp (Nat.le_zero.mp hlen)
    subst this
    simp at he
  | succ fuel ih =>
    intro cIdx pending outs cnt hlen hrun cI e he
    match pending with
    | [] => simp at he
    | x :: xs =>
      have hrest : ((x :: xs).drop BATCH).length ≤ fuel := by
        simp only [List.length_drop, List.length_cons, BATCH]
        simp only [List.length_cons] at hlen
        omega
      cases hdbc : db cIdx (((x :: xs).take BATCH).map (fun y => y.2)) with
      | error msg0 =>
        cases hrec : insertGo db fuel (cIdx+1) ((x :: xs).drop BATCH) with
        | error e0 =>
          rw [insertGo_cons_err_recErr db fuel cIdx x xs msg0 e0 hdbc hrec] at hrun
          exact absurd hrun (by simp)
        | ok p =>
          obtain ⟨os, n⟩ := p
          rw [insertGo_cons_err db fuel cIdx x xs msg0 os n hdbc hrec] at hrun
          cases hrun
          cases cI with
          | zero =>
            simp only [Nat.mul_zero, List.drop_zero, Nat.add_zero] at he ⊢
            constructor
            · intro msg hmsg
              rw [hdbc] at hmsg
              cases hmsg
              exact List.mem_append_left _ (List.mem_map.mpr ⟨e, he, rfl⟩)
            · intro data hdata
              rw [hdbc] at hdata
              exact absurd hdata (by simp)
          | succ cI =>
            have hdropS : (x :: xs).drop (BATCH * (cI+1)) =
                ((x :: xs).drop BATCH).drop (BATCH * cI) := by
              rw [List.drop_drop]
              have h3 : BATCH + BATCH * cI = BATCH * (cI + 1) := by ring
              rw [h3]
            rw [hdropS] at he ⊢
            have harith : cIdx + (cI + 1) = (cIdx + 1) + cI := by omega
            rw [harith]
            have hspec := ih (cIdx+1) ((x :: xs).drop BATCH) os cnt hrest hrec cI e he
            refine ⟨fun msg hmsg => List.mem_append_right _ ((hspec.1) msg hmsg), ?_⟩
            intro data hdata
            obtain ⟨d, hd, hmem⟩ := (hspec.2) data hdata
            exact ⟨d, hd, List.mem_append_right _ hmem⟩
      | ok data =>
        have hdl : data.length = ((x :: xs).take BATCH).length := by
          have h4 := hdb cIdx (((x :: xs).take BATCH).map (fun y => y.2)) data hdbc
          simpa using h4
        cases hrec : insertGo db fuel (cIdx+1) ((x :: xs).drop BATCH) with
        | error e0 =>
          rw [insertGo_cons_okk_recErr db fuel cIdx x xs data e0 hdbc
            (le_of_eq hdl) hrec] at hrun
          exact absurd hrun (by simp)
        | ok p =>
          obtain ⟨os, n⟩ := p
          rw [insertGo_cons_okk db fuel cIdx x xs data os n hdbc (le_of_eq hdl) hrec] at hrun
          cases hrun
          cases cI with
          | zero =>
            simp only [Nat.mul_zero, List.drop_zero, Nat.add_zero] at he ⊢
            constructor
            · intro msg hmsg
              rw [hdbc] at hmsg
              exact absurd hmsg (by simp)
            · intro data' hdata
              rw [hdbc] at hdata
              cases hdata
              obtain ⟨k, hk, hke⟩ := List.mem_iff_getElem.mp he
              have hkd : k < data.length := by rw [hdl]; exact hk
              refine ⟨data[k], List.getElem_mem hkd, ?_⟩
              apply List.mem_append_left
              apply List.mem_map.mpr
              refine ⟨(((x :: xs).take BATCH)[k], data[k]), ?_, by rw [← hke]⟩
              have hz : k < (((x :: xs).take BATCH).zip data).length := by
                simpa [List.length_zip, hdl] using hk
              have h5 := @List.getElem_zip _ _ ((x :: xs).take BATCH) data k hz
              rw [← h5]
              exact List.getElem_mem hz
          | succ cI =>
            have hdropS : (x :: xs).drop (BATCH * (cI+1)) =
                ((x :: xs).drop BATCH).drop (BATCH * cI) := by
              rw [List.drop_drop]
              have h3 : BATCH + BATCH * cI = BATCH * (cI + 1) := by ring
              rw [h3]
            rw [hdropS] at he ⊢
            have harith : cIdx + (cI + 1) = (cIdx + 1) + cI := by omega
            rw [harith]
            have hspec := ih (cIdx+1) ((x :: xs).drop BATCH) os n hrest hrec cI e he
            refine ⟨fun msg hmsg => List.mem_append_right _ ((hspec.1) msg hmsg), ?_⟩
            intro data' hdata
            obtain ⟨d, hd, hmem⟩ := (hspec.2) data' hdata
            exact ⟨d, hd, List.mem_append_right _ hmem⟩

/-! ### Sorting and index uniqueness -/

theorem sortByIndex_perm (rs : List Outcome) : (sortByIndex rs).Perm rs :=
  List.perm_insertionSort outLE rs

theorem mem_sortByIndex {rs : List Outcome} {o : Outcome} : o ∈ sortByIndex rs ↔ o ∈ rs :=
  (sortByIndex_perm rs).mem_iff

/-- Sorting by index a result list whose indices are a permutation of
`0 … n-1` yields exactly the index sequence `0, 1, …, n-1`. -/
theorem sortByIndex_map_index_eq_range (rs : List Outcome) (n : Nat)
    (h : ((rs.map (fun o => o.index))).Perm (List.range n)) :
    (sortByIndex rs).map (fun o => o.index) = List.range n := by
  have hperm : (((sortByIndex rs).map (fun o => o.index))).Perm (List.range n) :=
    ((sortByIndex_perm rs).map (fun o => o.index)).trans h
  have hsorted : List.Sorted (fun a b : Nat => a ≤ b)
      ((sortByIndex rs).map (fun o => o.index)) :=
    List.Pairwise.map (fun o : Outcome => o.index) (fun a b hab => hab)
      (List.sorted_insertionSort outLE rs)
  exact List.eq_of_perm_of_sorted hperm hsorted (List.pairwise_le_range n)

/-- In a result list whose indices are a permutation of `0 … n-1`, the index
field determines the outcome: two members with the same index are equal. -/
theorem index_inj_of_perm_range {l : List Outcome} {n : Nat}
    (h : ((l.map (fun o => o.index))).Perm (List.range n)) :
    ∀ o ∈ l, ∀ o' ∈ l, o.index = o'.index → o = o' := by
  have hnd : (l.map (fun o => o.index)).Nodup := h.nodup_iff.mpr (List.nodup_range n)
  intro o ho o' ho' heq
  exact List.inj_on_of_nodup_map hnd ho ho' heq

/-! ### Inversion of the handler -/

/-- Anatomy of a 200/201 response: the guard passed, the snapshot read
succeeded, the scan completed without a thrown exception, every chunk of the
chunk loop was processed, and the response is the sorted reconciliation with
its summary. -/
theorem bulkImport_ok_inv (env : Env) (fetchSongs : Except String (List ExistingSong))
    (db : DB) (query : Query) (body : ReqBody) (code : Nat) (resp : BulkResponse)
    (h : bulkImport env fetchSongs db query body = .ok code resp) :
    ∃ payload existing st insOuts createdCount,
      payloadOf body = some payload ∧ payload.isEmpty = false ∧
      fetchSongs = .ok existing ∧
      scanFrom (mkCtx env query existing) 0 payload ⟨[], [], []⟩ = .ok st ∧
      insertChunks db st.toInsert = .ok (insOuts, createdCount) ∧
      resp.results = sortByIndex (st.results ++ insOuts) ∧
      resp.summary = ⟨payload.length, createdCount,
        ((sortByIndex (st.results ++ insOuts)).filter fun r => r.status.isSkipped).length,
        ((sortByIndex (st.results ++ insOuts)).filter fun r => r.status.isInvalid).length,
        ((sortByIndex (st.results ++ insOuts)).filter fun r => r.status.isFailed).length⟩ ∧
      code = (if createdCount > 0 then 201 else 200) := by
  unfold bulkImport at h
  cases hp : payloadOf body with
  | none => simp only [hp] at h; exact absurd h (by simp)
  | some payload =>
    simp only [hp] at h
    cases hemp : payload.isEmpty with
    | true => simp only [hemp, if_true] at h; exact absurd h (by simp)
    | false =>
      simp only [hemp, Bool.false_eq_true, if_false] at h
      cases hf : fetchSongs with
      | error e => simp only [hf] at h; exact absurd h (by simp)
      | ok existing =>
        simp only [hf] at h
        cases hscan : scanFrom (mkCtx env query existing) 0 payload ⟨[], [], []⟩ with
        | error e => simp only [hscan] at h; exact absurd h (by simp)
        | ok st =>
          simp only [hscan] at h
          cases hins : insertChunks db st.toInsert with
          | error e => simp only [hins] at h; exact absurd h (by simp)
          | ok p =>
            obtain ⟨insOuts, createdCount⟩ := p
            simp only [hins] at h
            cases h
            exact ⟨payload, existing, st, insOuts, createdCount, rfl, hemp, rfl, hscan, hins,
              rfl, rfl, rfl⟩

/-! ### Site decomposition of the scan at one index -/

/-- Prefix/suffix decomposition of a successful scan at position `i`. -/
theorem scanFrom_split (c : Ctx) (payload : List RawSong) (st' : ScanState)
    (h : scanFrom c 0 payload ⟨[], [], []⟩ = .ok st') (i : Nat) (hi : i ≤ payload.length) :
    ∃ stPre, scanFrom c 0 (payload.take i) ⟨[], [], []⟩ = .ok stPre ∧
      scanFrom c i (payload.drop i) stPre = .ok st' := by
  have happ := scanFrom_append c (payload.take i) (payload.drop i) 0 ⟨[], [], []⟩
  rw [List.take_append_drop] at happ
  rw [h] at happ
  cases hpre : scanFrom c 0 (payload.take i) ⟨[], [], []⟩ with
  | error e =>
    rw [hpre] at happ
    exact absurd happ.symm (by simp)
  | ok stPre =>
    rw [hpre] at happ
    have hlen : (payload.take i).length = i := by
      rw [List.length_take]; omega
    rw [hlen, Nat.zero_add] at happ
    exact ⟨stPre, rfl, happ.symm⟩

/-- A successful full scan runs the loop body exactly once at each index, on
the state accumulated over the records before it. -/
theorem scanFrom_site (c : Ctx) (payload : List RawSong) (st' : ScanState)
    (h : scanFrom c 0 payload ⟨[], [], []⟩ = .ok st') (i : Nat) (hi : i < payload.length) :
    ∃ stPre st1, scanFrom c 0 (payload.take i) ⟨[], [], []⟩ = .ok stPre ∧
      scanStep c i payload[i] stPre = .ok st1 ∧
      scanFrom c (i+1) (payload.drop (i+1)) st1 = .ok st' := by
  obtain ⟨stPre, hpre, hsuf⟩ := scanFrom_split c payload st' h i (le_of_lt hi)
  rw [List.drop_eq_getElem_cons hi] at hsuf
  rw [show scanFrom c i (payload[i] :: payload.drop (i+1)) stPre =
    (match scanStep c i payload[i] stPre with
     | .error e => .error e
     | .ok st1 => scanFrom c (i+1) (payload.drop (i+1)) st1) from rfl] at hsuf
  cases hstep : scanStep c i payload[i] stPre with
  | error e =>
    rw [hstep] at hsuf
    exact absurd hsuf (by simp)
  | ok st1 =>
    rw [hstep] at hsuf
    exact ⟨stPre, st1, hpre, hstep, hsuf⟩

/-- The accepted names recorded by a scan are exactly the names of the rows it
accepted, in order. -/
theorem scan_acceptedNames_eq (c : Ctx) (payload : List RawSong) (st : ScanState)
    (h : scanFrom c 0 payload ⟨[], [], []⟩ = .ok st) :
    st.acceptedNames = st.toInsert.map (fun e => e.2.song_name) := by
  obtain ⟨δr, δt, hr, ht, ha, _, _⟩ := scanFrom_shape c payload 0 ⟨[], [], []⟩ st h
  simp only [List.nil_append] at hr ht ha
  rw [ha, ht]

/-- Every outcome the chunk loop ever reports is a creation or a failure. -/
theorem insertGo_states (db : DB) : ∀ (fuel cIdx : Nat) (pending : List (Nat × Row))
    (outs : List Outcome) (cnt : Nat),
    insertGo db fuel cIdx pending = .ok (outs, cnt) →
    ∀ o ∈ outs, (∃ id, o.status = .created id) ∨ (∃ m, o.status = .failed m) := by
  intro fuel
  induction fuel with
  | zero =>
    intro cIdx pending outs cnt hrun o ho
    match pending with
    | [] => cases hrun; simp at ho
    | x :: xs => cases hrun; simp at ho
  | succ fuel ih =>
    intro cIdx pending outs cnt hrun o ho
    match pending with
    | [] => cases hrun; simp at ho
    | x :: xs =>
      cases hdbc : db cIdx (((x :: xs).take BATCH).map (fun e => e.2)) with
      | error msg =>
        cases hrec : insertGo db fuel (cIdx+1) ((x :: xs).drop BATCH) with
        | error e0 =>
          rw [insertGo_cons_err_recErr db fuel cIdx x xs msg e0 hdbc hrec] at hrun
          exact absurd hrun (by simp)
        | ok p =>
          obtain ⟨os, n⟩ := p
          rw [insertGo_cons_err db fuel cIdx x xs msg os n hdbc hrec] at hrun
          cases hrun
          rcases List.mem_append.mp ho with hmem | hmem
          · obtain ⟨e, _, rfl⟩ := List.mem_map.mp hmem
            exact Or.inr ⟨msg, rfl⟩
          · exact ih (cIdx+1) ((x :: xs).drop BATCH) os cnt hrec o hmem
      | ok data =>
        by_cases hle : data.length ≤ ((x :: xs).take BATCH).length
        · cases hrec : insertGo db fuel (cIdx+1) ((x :: xs).drop BATCH) with
          | error e0 =>
            rw [insertGo_cons_okk_recErr db fuel cIdx x xs data e0 hdbc hle hrec] at hrun
            exact absurd hrun (by simp)
          | ok p =>
            obtain ⟨os, n⟩ := p
            rw [insertGo_cons_okk db fuel cIdx x xs data os n hdbc hle hrec] at hrun
            cases hrun
            rcases List.mem_append.mp ho with hmem | hmem
            · obtain ⟨e, _, rfl⟩ := List.mem_map.mp hmem
              exact Or.inl ⟨e.2.song_id, rfl⟩
            · exact ih (cIdx+1) ((x :: xs).drop BATCH) os n hrec o hmem
        · rw [show insertGo db (fuel+1) cIdx (x :: xs) =
              .error "Cannot read properties of undefined" by
                rw [insertGo_cons, hdbc]
                simp only [if_neg hle]] at hrun
          exact absurd hrun (by simp)

/-! ### Concrete fixtures for closed evaluations -/

/-- A deterministic similarity scorer for concrete runs: 1 for equal names,
0 otherwise (symmetric and bounded like the library scorer). -/
def simEq : String → String → ℚ := fun a b => if a = b then 1 else 0

/-- A JSON decoder stub for concrete runs: the text `ok` decodes to a
structured value, anything else throws. -/
def jpX : String → Except String JValue := fun s =>
  if s = "ok" then .ok (.jobj 7) else .error ("bad json: " ++ s)

def envX : Env := ⟨simEq, jpX, "T0"⟩

/-- A database that accepts every chunk and echoes the rows back with id 1. -/
def dbOK : DB := fun _ rows => .ok (rows.map fun r => ⟨1, r.song_name⟩)

/-- A database whose every insert fails. -/
def dbFail : DB := fun _ _ => .error "boom"

theorem dbOK_fullLength : ∀ cIdx rows data, dbOK cIdx rows = .ok data →
    data.length = rows.length := by
  intro cIdx rows data h
  cases h
  simp [dbOK]

def recA : RawSong :=
  { song_name := some "a", main_stanza := some (.jobj 1), stanzas := some (.jobj 2) }

def recA2 : RawSong :=
  { song_name := some "a", main_stanza := some (.jobj 3), stanzas := some (.jobj 4) }

def recB : RawSong :=
  { song_name := some "b", main_stanza := some (.jobj 1), stanzas := some (.jobj 2) }

def recBad : RawSong :=
  { song_name := some "x", main_stanza := some (.jobj 1) }

def recOops : RawSong :=
  { song_name := some "y", main_stanza := some (.jstr "oops"), stanzas := some (.jobj 1) }

/-! ### Claim theorems -/

/-- C9: For every request body that is neither a non-empty array nor an object
wrapping a non-empty array under `songs` (including an empty array), the whole
request is rejected with the structural 400 error; the result carries no
per-record outcomes and is the same for every snapshot reader and database, so
no snapshot read or insert takes place. -/
theorem bulk_malformed_body_rejected (body : ReqBody)
    (hbad : payloadOf body = none ∨ payloadOf body = some []) :
    ∀ (env : Env) (fetchSongs : Except String (List ExistingSong)) (db : DB) (query : Query),
      bulkImport env fetchSongs db query body =
        .err 400 "Body must be a non-empty array or \x7b songs: [...] \x7d" := by
  intro env fetchSongs db query
  rcases hbad with h | h
  · simp [bulkImport, h]
  · simp [bulkImport, h]

theorem bulk_malformed_body_rejected_witness :
    bulkImport envX (.ok []) dbOK {} (.arr []) =
      .err 400 "Body must be a non-empty array or \x7b songs: [...] \x7d" :=
  bulk_malformed_body_rejected (.arr []) (Or.inr rfl) envX (.ok []) dbOK {}

/-- C8 counterexample: for the non-numeric query value `zz` the computed
threshold is the NaN marker, not a value of [0,1] and in particular not a
boundary value, contradicting the claim that non-numeric input yields a
boundary value. -/
theorem threshold_nonnumeric_counterexample :
    thresholdOf (some "zz") = none ∧ thresholdOf (some "zz") ≠ some 0 ∧
      thresholdOf (some "zz") ≠ some 1 := by
  refine ⟨?_, ?_, ?_⟩ <;> with_unfolding_all decide

/-- C8 (amended): for a numeric similarity parameter the deduplication
threshold is clamped into [0,1] toward the nearer boundary, and an absent
parameter yields 0.8; but a non-numeric parameter yields the NaN marker
(`Math.max`/`Math.min` propagate NaN), under which every similarity comparison
is false, rather than a boundary value. -/
theorem threshold_clamped (q : Option String) :
    (∀ x : ℚ, parseFloat (q.getD "0.8") = some x →
      ∃ t : ℚ, thresholdOf q = some t ∧ 0 ≤ t ∧ t ≤ 1 ∧
        (0 ≤ x → x ≤ 1 → t = x) ∧ (x < 0 → t = 0) ∧ (1 < x → t = 1)) ∧
    (q = none → thresholdOf q = some (4/5)) ∧
    (parseFloat (q.getD "0.8") = none →
      thresholdOf q = none ∧ ∀ score : ℚ, simGe score (thresholdOf q) = false) := by
  refine ⟨?_, ?_, ?_⟩
  · intro x hx
    unfold thresholdOf jsMin1 jsMax0
    rw [hx]
    simp only [Option.map_some']
    by_cases h1 : x ≤ 1
    · rw [if_pos h1]
      by_cases h0 : x ≤ 0
      · rw [if_pos h0]
        exact ⟨0, rfl, le_refl 0, by norm_num, fun hge _ => le_antisymm hge h0,
          fun _ => rfl, fun hgt => absurd hgt (not_lt.mpr h1)⟩
      · rw [if_neg h0]
        push_neg at h0
        exact ⟨x, rfl, le_of_lt h0, h1, fun _ _ => rfl,
          fun hlt => absurd hlt (not_lt.mpr (le_of_lt h0)),
          fun hgt => absurd hgt (not_lt.mpr h1)⟩
    · rw [if_neg h1]
      rw [if_neg (by norm_num : ¬ (1 : ℚ) ≤ 0)]
      push_neg at h1
      exact ⟨1, rfl, by norm_num, le_refl 1,
        fun _ hle => absurd h1 (not_lt.mpr hle), fun hlt => by linarith, fun _ => rfl⟩
  · intro hq
    subst hq
    with_unfolding_all decide
  · intro hnone
    unfold thresholdOf jsMin1 jsMax0
    rw [hnone]
    exact ⟨rfl, fun score => rfl⟩

theorem threshold_clamped_witness : thresholdOf none = some (4/5) :=
  (threshold_clamped none).2.1 rfl

/-- C7: Throughout one batch scan, each iteration either leaves the accepted
names unchanged while reporting the record invalid or skipped, or appends the
normalised name of a record that passed validation and the similarity gate;
and over a whole scan the accepted names are exactly the names of the accepted
rows. -/
theorem acceptedNames_growth (c : Ctx) :
    (∀ (i : Nat) (raw : RawSong) (st st' : ScanState), scanStep c i raw st = .ok st' →
      (st'.acceptedNames = st.acceptedNames ∧
        ∃ o : Outcome, st'.results = st.results ++ [o] ∧
          (o.status = .invalid "Missing fields" ∨
            o.status = .skipped "similarity" c.similarity)) ∨
      (validRecord raw = true ∧
        blockedAt c st.acceptedNames ((normName raw).getD "") = false ∧
        st'.acceptedNames = st.acceptedNames ++ [(normName raw).getD ""] ∧
        st'.results = st.results)) ∧
    (∀ (payload : List RawSong) (st : ScanState),
      scanFrom c 0 payload ⟨[], [], []⟩ = .ok st →
      st.acceptedNames = st.toInsert.map (fun e => e.2.song_name)) := by
  constructor
  · intro i raw st st' h
    rcases scanStep_ok_shape c i raw st st' h with
      ⟨o, _, ho_st, h1r, _, h1a⟩ | ⟨row, h1r, _, h1a, hv, hn, hb⟩
    · refine Or.inl ⟨h1a, o, h1r, ?_⟩
      rcases ho_st with h2 | h2
      · exact Or.inl h2.1
      · exact Or.inr h2.1
    · refine Or.inr ⟨hv, ?_, by rw [h1a, hn], h1r⟩
      rw [← hn]
      exact hb
  · exact fun payload st h => scan_acceptedNames_eq c payload st h

theorem acceptedNames_growth_witness :
    (⟨[], [(0, ⟨"a", .jobj 1, .jobj 2, "T0", "T0", "System", ""⟩)], ["a"]⟩ :
        ScanState).acceptedNames =
      ([(0, (⟨"a", .jobj 1, .jobj 2, "T0", "T0", "System", ""⟩ : Row))].map
        (fun e => e.2.song_name)) :=
  (acceptedNames_growth (mkCtx envX {} [])).2 [recA]
    ⟨[], [(0, ⟨"a", .jobj 1, .jobj 2, "T0", "T0", "System", ""⟩)], ["a"]⟩
    (by with_unfolding_all rfl)

/-- In permissive mode a scan over valid records accepts every one of them. -/
theorem scan_all_valid_permissive (c : Ctx) (hperm : c.allowSimilar = true) :
    ∀ (xs : List RawSong) (i : Nat) (st st' : ScanState),
    (∀ r ∈ xs, validRecord r = true) →
    scanFrom c i xs st = .ok st' →
    st'.results = st.results ∧ st'.toInsert.length = st.toInsert.length + xs.length := by
  intro xs
  induction xs with
  | nil =>
    intro i st st' _ h
    cases h
    exact ⟨rfl, by simp⟩
  | cons x rest ih =>
    intro i st st' hall h
    rw [show scanFrom c i (x :: rest) st = (match scanStep c i x st with
        | .error e => .error e
        | .ok st1 => scanFrom c (i+1) rest st1) from rfl] at h
    cases hs : scanStep c i x st with
    | error e => rw [hs] at h; exact absurd h (by simp)
    | ok st1 =>
      rw [hs] at h
      rcases scanStep_ok_shape c i x st st1 hs with
        ⟨o, _, ho_st, h1r, h1t, _⟩ | ⟨row, h1r, h1t, _, _, _, _⟩
      · rcases ho_st with ⟨_, hvf⟩ | ⟨_, haf⟩
        · exact absurd (hall x (List.mem_cons_self x rest)) (by rw [hvf]; simp)
        · rw [hperm] at haf; exact absurd haf (by simp)
      · obtain ⟨h2r, h2len⟩ := ih (i+1) st1 st' (fun r hr => hall r (List.mem_cons_of_mem x hr)) h
        refine ⟨by rw [h2r, h1r], ?_⟩
        rw [h2len, h1t]
        simp only [List.length_append, List.length_cons, List.length_nil]
        omega

/-- Every chunk insert of `dbOK` succeeds row-for-row. -/
theorem dbOK_allOk : ∀ cIdx rows, ∃ data, dbOK cIdx rows = .ok data ∧
    data.length = rows.length := by
  intro cIdx rows
  have hdata : dbOK cIdx rows = .ok (rows.map (fun r => (⟨1, r.song_name⟩ : InsertedRow))) := rfl
  exact ⟨rows.map (fun r => (⟨1, r.song_name⟩ : InsertedRow)), hdata, by simp⟩

/-- C2: In permissive mode (allowSimilar defaulted or "true") no outcome of a
successful bulk import is ever `skipped_conflict`; and when the whole payload
is valid and every chunk insert succeeds row-for-row, the summary's created
count equals the requested count. -/
theorem permissive_mode_created_eq_requested
    (env : Env) (fetchSongs : Except String (List ExistingSong)) (db : DB)
    (query : Query) (body : ReqBody) (code : Nat) (resp : BulkResponse)
    (hallow : query.allowSimilar = none ∨ query.allowSimilar = some "true")
    (hrun : bulkImport env fetchSongs db query body = .ok code resp) :
    (∀ o ∈ resp.results, ∀ cw t, o.status ≠ .skipped cw t) ∧
    (∀ payload, payloadOf body = some payload →
      (∀ r ∈ payload, validRecord r = true) →
      (∀ cIdx rows, ∃ data, db cIdx rows = .ok data ∧ data.length = rows.length) →
      resp.summary.created = resp.summary.requested) := by
  obtain ⟨payload, existing, st, insOuts, createdCount, hp, hemp, hf, hscan, hins,
    hres, hsum, hcode⟩ := bulkImport_ok_inv env fetchSongs db query body code resp hrun
  have hperm : (mkCtx env query existing).allowSimilar = true := by
    rcases hallow with h | h <;> simp [mkCtx, h]
  constructor
  · intro o ho cw t hstat
    rw [hres] at ho
    have ho2 : o ∈ st.results ++ insOuts := mem_sortByIndex.mp ho
    rcases List.mem_append.mp ho2 with hmem | hmem
    · obtain ⟨δr, δt, hr, _, _, _, hstatuses⟩ :=
        scanFrom_shape (mkCtx env query existing) payload 0 ⟨[], [], []⟩ st hscan
      have hoδ : o ∈ δr := by
        rw [hr] at hmem
        simpa using hmem
      rcases hstatuses o hoδ with h2 | ⟨h2, haf⟩
      · rw [hstat] at h2; exact absurd h2 (by simp)
      · rw [hperm] at haf; exact absurd haf (by simp)
    · rcases insertGo_states db st.toInsert.length 0 st.toInsert insOuts createdCount
        hins o hmem with ⟨id, h2⟩ | ⟨m, h2⟩
      · rw [hstat] at h2; exact absurd h2 (by simp)
      · rw [hstat] at h2; exact absurd h2 (by simp)
  · intro payload2 hp2 hvalid hdb
    have hpeq : payload2 = payload := by
      have h3 := hp.symm.trans hp2
      exact (Option.some.injEq _ _ ▸ h3).symm
    subst hpeq
    obtain ⟨hre, hlen⟩ := scan_all_valid_permissive (mkCtx env query existing) hperm
      payload2 0 ⟨[], [], []⟩ st hvalid hscan
    obtain ⟨outs2, hins2⟩ := insertGo_all_ok db hdb st.toInsert.length 0 st.toInsert
      (le_refl _)
    have h4 : (Except.ok (insOuts, createdCount) : Except String (List Outcome × Nat)) =
        Except.ok (outs2, st.toInsert.length) := hins.symm.trans hins2
    have h5 : createdCount = st.toInsert.length := by
      injection h4 with h6
      exact congrArg Prod.snd h6
    rw [hsum]
    simp only []
    rw [h5, hlen]
    simp

theorem permissive_mode_created_eq_requested_witness :
    (⟨⟨2, 2, 0, 0, 0⟩,
      [⟨0, some "a", .created 1⟩, ⟨1, some "b", .created 1⟩]⟩ : BulkResponse).summary.created =
    (⟨⟨2, 2, 0, 0, 0⟩,
      [⟨0, some "a", .created 1⟩, ⟨1, some "b", .created 1⟩]⟩ : BulkResponse).summary.requested :=
  (permissive_mode_created_eq_requested envX (.ok []) dbOK {} (.arr [recA, recB]) 201
    ⟨⟨2, 2, 0, 0, 0⟩, [⟨0, some "a", .created 1⟩, ⟨1, some "b", .created 1⟩]⟩
    (Or.inl rfl) (by with_unfolding_all rfl)).2 [recA, recB] rfl
    (by with_unfolding_all decide) dbOK_allOk

/-- C1: Under whole-chunk insert semantics (a successful chunk insert returns
one row per submitted row), a successful bulk import returns exactly one
outcome per input element: the sorted results' index sequence is exactly
`0, 1, …, n-1` — same length as the input, each index once, ascending. -/
theorem bulk_one_outcome_per_index
    (env : Env) (fetchSongs : Except String (List ExistingSong)) (db : DB)
    (query : Query) (body : ReqBody) (code : Nat) (resp : BulkResponse)
    (payload : List RawSong)
    (hp : payloadOf body = some payload)
    (hdb : ∀ cIdx rows data, db cIdx rows = .ok data → data.length = rows.length)
    (hrun : bulkImport env fetchSongs db query body = .ok code resp) :
    resp.results.length = payload.length ∧
    resp.results.map (fun o => o.index) = List.range payload.length := by
  obtain ⟨payload1, existing, st, insOuts, createdCount, hp1, hemp, hf, hscan, hins,
    hres, hsum, hcode⟩ := bulkImport_ok_inv env fetchSongs db query body code resp hrun
  have hpay : payload1 = payload := by
    have h3 := hp1.symm.trans hp
    exact Option.some.injEq _ _ ▸ h3
  subst hpay
  obtain ⟨δr, δt, hr, ht, ha, hperm, _⟩ :=
    scanFrom_shape (mkCtx env query existing) payload1 0 ⟨[], [], []⟩ st hscan
  simp only [List.nil_append] at hr ht
  obtain ⟨outs, cnt, hins2, hmap, _⟩ :=
    insertGo_ok db hdb st.toInsert.length 0 st.toInsert (le_refl _)
  have h4 : (Except.ok (insOuts, createdCount) : Except String (List Outcome × Nat)) =
      Except.ok (outs, cnt) := hins.symm.trans hins2
  have h5 : insOuts = outs := by
    injection h4 with h6
    exact congrArg Prod.fst h6
  have hidx : ((st.results ++ insOuts).map (fun o => o.index)).Perm
      (List.range payload1.length) := by
    rw [List.map_append, h5, hmap, hr, ht, List.range_eq_range']
    exact hperm
  have hfinal := sortByIndex_map_index_eq_range (st.results ++ insOuts)
    payload1.length hidx
  rw [hres]
  refine ⟨?_, hfinal⟩
  have h7 := congrArg List.length hfinal
  rw [List.length_map, List.length_range] at h7
  exact h7

theorem bulk_one_outcome_per_index_witness :
    ([(⟨0, some "a", .created 1⟩ : Outcome), ⟨1, some "x", .invalid "Missing fields"⟩] :
        List Outcome).length = ([recA, recBad] : List RawSong).length ∧
    ([(⟨0, some "a", .created 1⟩ : Outcome),
        ⟨1, some "x", .invalid "Missing fields"⟩].map (fun o => o.index)) =
      List.range ([recA, recBad] : List RawSong).length := by
  have h := bulk_one_outcome_per_index envX (.ok []) dbOK {} (.arr [recA, recBad]) 201
    ⟨⟨2, 1, 0, 1, 0⟩, [⟨0, some "a", .created 1⟩, ⟨1, some "x", .invalid "Missing fields"⟩]⟩
    [recA, recBad] rfl dbOK_fullLength (by with_unfolding_all rfl)
  exact h

/-- C6 counterexample: a batch containing one otherwise-valid record whose
serialized `main_stanza` fails to decode is answered with a whole-request 500
error carrying the decode message — no per-record outcomes at all, not even
for the first record, which was healthy and already accepted. -/
theorem decode_failure_aborts_counterexample :
    bulkImport envX (.ok []) dbOK {} (.arr [recA, recOops]) = .err 500 "bad json: oops" := by
  with_unfolding_all rfl

/-- C6 (amended): when a record that passed validation and the similarity gate
carries a serialized `main_stanza` or `stanzas` field that fails to decode, the
whole request aborts with a 500 error carrying the decode error and returns no
per-record outcomes: the `JSON.parse` exception thrown inside the row build
propagates to the catch handler. -/
theorem decode_failure_aborts
    (env : Env) (existing : List ExistingSong) (db : DB)
    (query : Query) (payload : List RawSong) (i : Nat) (e : String)
    (hi : i < payload.length)
    (hemp : payload.isEmpty = false)
    (stPre : ScanState)
    (hpre : scanFrom (mkCtx env query existing) 0 (payload.take i) ⟨[], [], []⟩ = .ok stPre)
    (hvalid : validRecord payload[i] = true)
    (hnotblocked : blockedAt (mkCtx env query existing) stPre.acceptedNames
      ((normName payload[i]).getD "") = false)
    (hrow : rowOf env payload[i] ((normName payload[i]).getD "") = .error e) :
    bulkImport env (.ok existing) db query (.arr payload) = .err 500 e := by
  have hstep : scanStep (mkCtx env query existing) i payload[i] stPre = .error e :=
    scanStep_throw (mkCtx env query existing) i payload[i] stPre e hvalid hnotblocked hrow
  have hfull : scanFrom (mkCtx env query existing) 0 payload ⟨[], [], []⟩ = .error e := by
    have happ := scanFrom_append (mkCtx env query existing)
      (payload.take i) (payload.drop i) 0 ⟨[], [], []⟩
    rw [List.take_append_drop] at happ
    rw [happ]
    simp only [hpre]
    have hlen : (payload.take i).length = i := by
      rw [List.length_take]; omega
    rw [hlen, Nat.zero_add, List.drop_eq_getElem_cons hi]
    rw [show scanFrom (mkCtx env query existing) i (payload[i] :: payload.drop (i+1)) stPre =
      (match scanStep (mkCtx env query existing) i payload[i] stPre with
       | .error e2 => .error e2
       | .ok st1 => scanFrom (mkCtx env query existing) (i+1) (payload.drop (i+1)) st1)
      from rfl]
    simp only [hstep]
  have hne : ¬ payload = [] := by
    intro hcon
    rw [hcon] at hemp
    simp at hemp
  simp [bulkImport, payloadOf, hfull, hne]

theorem decode_failure_aborts_witness :
    bulkImport envX (.ok []) dbOK {} (.arr [recOops]) = .err 500 "bad json: oops" :=
  decode_failure_aborts envX [] dbOK {} [recOops] 0 "bad json: oops"
    (by with_unfolding_all decide) (by with_unfolding_all decide) ⟨[], [], []⟩
    (by with_unfolding_all rfl) (by with_unfolding_all decide)
    (by with_unfolding_all decide) (by with_unfolding_all rfl)

/-- Indices reported by the chunk loop all come from its pending entries. -/
theorem insertGo_index_sub (db : DB) : ∀ (fuel cIdx : Nat) (pending : List (Nat × Row))
    (outs : List Outcome) (cnt : Nat),
    insertGo db fuel cIdx pending = .ok (outs, cnt) →
    ∀ o ∈ outs, o.index ∈ pending.map (fun e => e.1) := by
  intro fuel
  induction fuel with
  | zero =>
    intro cIdx pending outs cnt hrun o ho
    match pending with
    | [] => cases hrun; simp at ho
    | x :: xs => cases hrun; simp at ho
  | succ fuel ih =>
    intro cIdx pending outs cnt hrun o ho
    match pending with
    | [] => cases hrun; simp at ho
    | x :: xs =>
      cases hdbc : db cIdx (((x :: xs).take BATCH).map (fun e => e.2)) with
      | error msg =>
        cases hrec : insertGo db fuel (cIdx+1) ((x :: xs).drop BATCH) with
        | error e0 =>
          rw [insertGo_cons_err_recErr db fuel cIdx x xs msg e0 hdbc hrec] at hrun
          exact absurd hrun (by simp)
        | ok p =>
          obtain ⟨os, n⟩ := p
          rw [insertGo_cons_err db fuel cIdx x xs msg os n hdbc hrec] at hrun
          cases hrun
          rcases List.mem_append.mp ho with hmem | hmem
          · obtain ⟨e, he, rfl⟩ := List.mem_map.mp hmem
            exact List.mem_map.mpr ⟨e, List.take_subset BATCH (x :: xs) he, rfl⟩
          · have := ih (cIdx+1) ((x :: xs).drop BATCH) os cnt hrec o hmem
            obtain ⟨e, he, heq⟩ := List.mem_map.mp this
            exact List.mem_map.mpr ⟨e, List.drop_subset BATCH (x :: xs) he, heq⟩
      | ok data =>
        by_cases hle : data.length ≤ ((x :: xs).take BATCH).length
        · cases hrec : insertGo db fuel (cIdx+1) ((x :: xs).drop BATCH) with
          | error e0 =>
            rw [insertGo_cons_okk_recErr db fuel cIdx x xs data e0 hdbc hle hrec] at hrun
            exact absurd hrun (by simp)
          | ok p =>
            obtain ⟨os, n⟩ := p
            rw [insertGo_cons_okk db fuel cIdx x xs data os n hdbc hle hrec] at hrun
            cases hrun
            rcases List.mem_append.mp ho with hmem | hmem
            · obtain ⟨pr, hpr, rfl⟩ := List.mem_map.mp hmem
              have hp1 : pr.1 ∈ (x :: xs).take BATCH := (List.of_mem_zip hpr).1
              exact List.mem_map.mpr ⟨pr.1, List.take_subset BATCH (x :: xs) hp1, rfl⟩
            · have := ih (cIdx+1) ((x :: xs).drop BATCH) os n hrec o hmem
              obtain ⟨e, he, heq⟩ := List.mem_map.mp this
              exact List.mem_map.mpr ⟨e, List.drop_subset BATCH (x :: xs) he, heq⟩
        · rw [show insertGo db (fuel+1) cIdx (x :: xs) =
              .error "Cannot read properties of undefined" by
                rw [insertGo_cons, hdbc]
                simp only [if_neg hle]] at hrun
          exact absurd hrun (by simp)

/-- A validated record that the similarity gate blocks at its site is reported
`skipped_conflict` in the scan's results. -/
theorem scan_skip_site (c : Ctx) (payload : List RawSong) (stFull : ScanState)
    (hfull : scanFrom c 0 payload ⟨[], [], []⟩ = .ok stFull)
    (i : Nat) (hi : i < payload.length)
    (hvalid : validRecord payload[i] = true)
    (stPre : ScanState)
    (hpre : scanFrom c 0 (payload.take i) ⟨[], [], []⟩ = .ok stPre)
    (hb : blockedAt c stPre.acceptedNames ((normName payload[i]).getD "") = true) :
    (⟨i, normName payload[i], .skipped "similarity" c.similarity⟩ : Outcome) ∈
      stFull.results := by
  obtain ⟨stPre2, st1, hpre2, hstep, hsuf⟩ := scanFrom_site c payload stFull hfull i hi
  have hsame : stPre2 = stPre := by
    have h3 := hpre2.symm.trans hpre
    injection h3
  subst hsame
  rw [scanStep_skip c i payload[i] stPre2 hvalid hb] at hstep
  injection hstep with hstep2
  obtain ⟨δr, δt, hr, _, _, _, _⟩ :=
    scanFrom_shape c (payload.drop (i+1)) (i+1) st1 stFull hsuf
  rw [hr, ← hstep2]
  simp

/-- A validated record that the similarity gate does not block at its site is
accepted for insertion: its index and row appear in the scan's `toInsert`,
carrying its normalised name. -/
theorem scan_accept_site (c : Ctx) (payload : List RawSong) (stFull : ScanState)
    (hfull : scanFrom c 0 payload ⟨[], [], []⟩ = .ok stFull)
    (i : Nat) (hi : i < payload.length)
    (hvalid : validRecord payload[i] = true)
    (stPre : ScanState)
    (hpre : scanFrom c 0 (payload.take i) ⟨[], [], []⟩ = .ok stPre)
    (hb : blockedAt c stPre.acceptedNames ((normName payload[i]).getD "") = false) :
    ∃ row : Row, (i, row) ∈ stFull.toInsert ∧
      row.song_name = (normName payload[i]).getD "" := by
  obtain ⟨stPre2, st1, hpre2, hstep, hsuf⟩ := scanFrom_site c payload stFull hfull i hi
  have hsame : stPre2 = stPre := by
    have h3 := hpre2.symm.trans hpre
    injection h3
  subst hsame
  cases hrow : rowOf c.env payload[i] ((normName payload[i]).getD "") with
  | error e =>
    rw [scanStep_throw c i payload[i] stPre2 e hvalid hb hrow] at hstep
    exact absurd hstep (by simp)
  | ok row =>
    rw [scanStep_accept c i payload[i] stPre2 row hvalid hb hrow] at hstep
    injection hstep with hstep2
    obtain ⟨δr, δt, _, ht, _, _, _⟩ :=
      scanFrom_shape c (payload.drop (i+1)) (i+1) st1 stFull hsuf
    refine ⟨row, ?_, rowOf_name c.env payload[i] _ row hrow⟩
    rw [ht, ← hstep2]
    simp

/-- C3: In strict mode with clamped threshold `T`, a validated candidate whose
similarity score against some name of the pre-fetched snapshot or of the names
accepted earlier in the same batch reaches `T` is reported `skipped_conflict`
and never `created` in the response; a validated candidate all of whose scores
against both sets stay below `T` is accepted for insertion. -/
theorem strict_mode_similarity_gate
    (env : Env) (db : DB) (query : Query) (existing : List ExistingSong)
    (payload : List RawSong) (T : ℚ) (i : Nat)
    (hallow : query.allowSimilar = some "false")
    (hT : thresholdOf query.similarity = some T)
    (hi : i < payload.length)
    (hvalid : validRecord payload[i] = true)
    (stPre : ScanState)
    (hpre : scanFrom (mkCtx env query existing) 0 (payload.take i) ⟨[], [], []⟩ = .ok stPre) :
    ((∃ n ∈ existing.map (fun s => s.song_name) ++ stPre.acceptedNames,
        T ≤ env.sim ((normName payload[i]).getD "") n) →
      ∀ (code : Nat) (resp : BulkResponse),
        bulkImport env (.ok existing) db query (.arr payload) = .ok code resp →
        (∃ o ∈ resp.results, o.index = i ∧ o.status = .skipped "similarity" (some T)) ∧
        (∀ o ∈ resp.results, o.index = i → ∀ id, o.status ≠ .created id)) ∧
    ((∀ n ∈ existing.map (fun s => s.song_name) ++ stPre.acceptedNames,
        env.sim ((normName payload[i]).getD "") n < T) →
      ∀ stFull, scanFrom (mkCtx env query existing) 0 payload ⟨[], [], []⟩ = .ok stFull →
        ∃ row : Row, (i, row) ∈ stFull.toInsert ∧
          row.song_name = (normName payload[i]).getD "") := by
  have hctxA : (mkCtx env query existing).allowSimilar = false := by simp [mkCtx, hallow]
  have hctxS : (mkCtx env query existing).similarity = some T := hT
  constructor
  · intro hconf code resp hrun
    have hb : blockedAt (mkCtx env query existing) stPre.acceptedNames
        ((normName payload[i]).getD "") = true := by
      obtain ⟨n, hn, hscore⟩ := hconf
      unfold blockedAt
      rw [hctxA]
      simp only [Bool.not_false, Bool.true_and, Bool.or_eq_true, List.any_eq_true]
      rcases List.mem_append.mp hn with hmem | hmem
      · exact Or.inl ⟨n, by simpa [mkCtx] using hmem, by simp [simGe, mkCtx, hT, hscore]⟩
      · exact Or.inr ⟨n, hmem, by simp [simGe, mkCtx, hT, hscore]⟩
    obtain ⟨payload1, existing1, st, insOuts, createdCount, hp1, hemp, hf, hscan, hins,
      hres, hsum, hcode⟩ :=
      bulkImport_ok_inv env (.ok existing) db query (.arr payload) code resp hrun
    have hpay : payload1 = payload := by
      have h3 : (some payload : Option (List RawSong)) = some payload1 := hp1
      injection h3 with h4
      exact h4.symm
    subst hpay
    have hex : existing1 = existing := by
      injection hf with h4
      exact h4.symm
    subst hex
    have hskip := scan_skip_site (mkCtx env query existing1) payload1 st hscan i hi
      hvalid stPre hpre hb
    rw [hctxS] at hskip
    constructor
    · refine ⟨⟨i, normName payload1[i], .skipped "similarity" (some T)⟩, ?_, rfl, rfl⟩
      rw [hres]
      exact mem_sortByIndex.mpr (List.mem_append_left _ hskip)
    · intro o ho hidx id hstat
      rw [hres] at ho
      rcases List.mem_append.mp (mem_sortByIndex.mp ho) with hmem | hmem
      · obtain ⟨δr, δt, hr, ht, _, _, hstatuses⟩ :=
          scanFrom_shape (mkCtx env query existing1) payload1 0 ⟨[], [], []⟩ st hscan
        simp only [List.nil_append] at hr ht
        have hoδ : o ∈ δr := by rw [← hr]; exact hmem
        rcases hstatuses o hoδ with h2 | ⟨h2, _⟩ <;> rw [hstat] at h2 <;>
          exact absurd h2 (by simp)
      · obtain ⟨δr, δt, hr, ht, _, hperm, _⟩ :=
          scanFrom_shape (mkCtx env query existing1) payload1 0 ⟨[], [], []⟩ st hscan
        simp only [List.nil_append] at hr ht
        rw [← List.range_eq_range'] at hperm
        have hnd : ((δr.map (fun o => o.index)) ++ (δt.map (fun e => e.1))).Nodup :=
          hperm.nodup_iff.mpr (List.nodup_range payload1.length)
        rw [List.nodup_append] at hnd
        have hiL : i ∈ δr.map (fun o => o.index) := by
          rw [← hr]
          exact List.mem_map.mpr ⟨_, hskip, rfl⟩
        have hiR : i ∈ δt.map (fun e => e.1) := by
          have h5 := insertGo_index_sub db st.toInsert.length 0 st.toInsert insOuts
            createdCount hins o hmem
          rw [hidx] at h5
          rw [← ht]
          exact h5
        exact hnd.2.2 hiL hiR
  · intro hnoconf stFull hfull
    have hb : blockedAt (mkCtx env query existing) stPre.acceptedNames
        ((normName payload[i]).getD "") = false := by
      unfold blockedAt
      rw [hctxA]
      simp only [Bool.not_false, Bool.true_and]
      apply Bool.or_eq_false_iff.mpr
      constructor
      · apply List.any_eq_false.mpr
        intro n hn
        have h5 := hnoconf n (List.mem_append_left _ (by simpa [mkCtx] using hn))
        simp [simGe, mkCtx, hT, not_le.mpr h5]
      · apply List.any_eq_false.mpr
        intro n hn
        have h5 := hnoconf n (List.mem_append_right _ hn)
        simp [simGe, mkCtx, hT, not_le.mpr h5]
    exact scan_accept_site (mkCtx env query existing) payload stFull hfull i hi
      hvalid stPre hpre hb

/-- A strict-mode query with the threshold left at its default. -/
def queryStrict : Query := ⟨some "false", none⟩

theorem strict_mode_similarity_gate_witness :
    (∃ o ∈ ([⟨0, some "a", .skipped "similarity" (some (4/5))⟩] : List Outcome),
        o.index = 0 ∧ o.status = .skipped "similarity" (some (4/5))) ∧
    (∀ o ∈ ([⟨0, some "a", .skipped "similarity" (some (4/5))⟩] : List Outcome),
        o.index = 0 → ∀ id, o.status ≠ .created id) :=
  (strict_mode_similarity_gate envX dbOK queryStrict [⟨5, "a"⟩] [recA] (4/5) 0
      rfl (by with_unfolding_all decide) (by decide)
      (by with_unfolding_all decide) ⟨[], [], []⟩ (by with_unfolding_all rfl)).1
    ⟨"a", by simp, by with_unfolding_all decide⟩ 200
    ⟨⟨1, 0, 1, 0, 0⟩, [⟨0, some "a", .skipped "similarity" (some (4/5))⟩]⟩
    (by with_unfolding_all rfl)

/-- C4 counterexample: with two identical names in one strict-mode payload the
later record is indeed skipped while the earlier is created, but its
`conflictWith` field is the generic `"similarity"` tag, not `"payload"` as the
claim states. -/
theorem payload_conflict_tag_counterexample :
    bulkImport envX (.ok []) dbOK queryStrict (.arr [recA, recA2]) =
      .ok 201 ⟨⟨2, 1, 1, 0, 0⟩,
        [⟨0, some "a", .created 1⟩, ⟨1, some "a", .skipped "similarity" (some (4/5))⟩]⟩ ∧
    (Status.skipped "similarity" (some (4/5)) ≠ Status.skipped "payload" (some (4/5))) := by
  constructor
  · with_unfolding_all rfl
  · with_unfolding_all decide

/-- C4 (amended): in strict mode, when a validated record `j` repeats — at or
above the threshold — the name of an earlier validated record `i` that was
itself unblocked at its site, the earlier record is accepted for insertion and
the later one is reported `skipped_conflict`; its `conflictWith` field is
always the generic `"similarity"` tag with the threshold echoed, never
`"payload"`. -/
theorem payload_conflict_order
    (env : Env) (query : Query) (existing : List ExistingSong)
    (payload : List RawSong) (T : ℚ) (i j : Nat)
    (hallow : query.allowSimilar = some "false")
    (hT : thresholdOf query.similarity = some T)
    (hij : i < j) (hj : j < payload.length)
    (hvi : validRecord payload[i] = true)
    (hvj : validRecord payload[j] = true)
    (stPrei : ScanState)
    (hprei : scanFrom (mkCtx env query existing) 0 (payload.take i) ⟨[], [], []⟩ = .ok stPrei)
    (hbi : blockedAt (mkCtx env query existing) stPrei.acceptedNames
      ((normName payload[i]).getD "") = false)
    (hsim : T ≤ env.sim ((normName payload[j]).getD "") ((normName payload[i]).getD ""))
    (stFull : ScanState)
    (hfull : scanFrom (mkCtx env query existing) 0 payload ⟨[], [], []⟩ = .ok stFull) :
    (∃ row : Row, (i, row) ∈ stFull.toInsert ∧
      row.song_name = (normName payload[i]).getD "") ∧
    (⟨j, normName payload[j], .skipped "similarity" (some T)⟩ : Outcome) ∈
      stFull.results := by
  have hi : i < payload.length := hij.trans hj
  have hctxS : (mkCtx env query existing).similarity = some T := hT
  obtain ⟨stPrej, hprej, _⟩ := scanFrom_split (mkCtx env query existing) payload stFull
    hfull j (le_of_lt hj)
  have hjlen : i < (payload.take j).length := by
    rw [List.length_take]; omega
  have htakei : (payload.take j).take i = payload.take i := by
    rw [List.take_take]
    have h3 : i ⊓ j = i := by omega
    rw [h3]
  have hgeti : (payload.take j)[i] = payload[i] := List.getElem_take payload
  obtain ⟨rowi, hrowi, hrowiname⟩ := scan_accept_site (mkCtx env query existing)
    (payload.take j) stPrej hprej i hjlen (by rw [hgeti]; exact hvi) stPrei
    (by rw [htakei]; exact hprei) (by rw [hgeti]; exact hbi)
  have hnames := scan_acceptedNames_eq (mkCtx env query existing) (payload.take j)
    stPrej hprej
  have hmemname : (normName payload[i]).getD "" ∈ stPrej.acceptedNames := by
    rw [hnames]
    refine List.mem_map.mpr ⟨(i, rowi), hrowi, ?_⟩
    rw [hrowiname]
    rw [hgeti]
  have hbj : blockedAt (mkCtx env query existing) stPrej.acceptedNames
      ((normName payload[j]).getD "") = true := by
    unfold blockedAt
    have hctxA : (mkCtx env query existing).allowSimilar = false := by simp [mkCtx, hallow]
    rw [hctxA]
    simp only [Bool.not_false, Bool.true_and, Bool.or_eq_true, List.any_eq_true]
    exact Or.inr ⟨(normName payload[i]).getD "", hmemname,
      by simp [simGe, mkCtx, hT, hsim]⟩
  have hskip := scan_skip_site (mkCtx env query existing) payload stFull hfull j hj
    hvj stPrej hprej hbj
  rw [hctxS] at hskip
  refine ⟨?_, hskip⟩
  obtain ⟨rowi2, hrowi2, hname2⟩ := scan_accept_site (mkCtx env query existing)
    payload stFull hfull i hi hvi stPrei hprei hbi
  exact ⟨rowi2, hrowi2, hname2⟩

theorem payload_conflict_order_witness :
    (∃ row : Row, (0, row) ∈ ([(0, (⟨"a", .jobj 1, .jobj 2, "T0", "T0", "System", ""⟩ : Row))] :
        List (Nat × Row)) ∧ row.song_name = "a") ∧
    (⟨1, some "a", .skipped "similarity" (some (4/5))⟩ : Outcome) ∈
      ([⟨1, some "a", .skipped "similarity" (some (4/5))⟩] : List Outcome) := by
  have h := payload_conflict_order envX queryStrict [] [recA, recA2] (4/5) 0 1
    rfl (by with_unfolding_all decide) (by decide) (by decide)
    (by with_unfolding_all decide) (by with_unfolding_all decide)
    ⟨[], [], []⟩ (by with_unfolding_all rfl) (by with_unfolding_all decide)
    (by with_unfolding_all decide)
    ⟨[⟨1, some "a", .skipped "similarity" (some (4/5))⟩],
      [(0, ⟨"a", .jobj 1, .jobj 2, "T0", "T0", "System", ""⟩)], ["a"]⟩
    (by with_unfolding_all rfl)
  exact h

/-- C10: In strict mode a validated record's name joins the accepted names at
acceptance time, before any insert is issued: a later near-duplicate in the
same payload is reported `skipped_conflict` even when every chunk insert fails
so that the earlier accepted record itself is reported `failed` — the conflict
is declared against a name that was never actually created. -/
theorem conflict_against_uncreated_name
    (env : Env) (db : DB) (query : Query) (existing : List ExistingSong)
    (payload : List RawSong) (T : ℚ) (i j : Nat) (msg : String)
    (hallow : query.allowSimilar = some "false")
    (hT : thresholdOf query.similarity = some T)
    (hij : i < j) (hj : j < payload.length)
    (hvi : validRecord payload[i] = true)
    (hvj : validRecord payload[j] = true)
    (stPrei : ScanState)
    (hprei : scanFrom (mkCtx env query existing) 0 (payload.take i) ⟨[], [], []⟩ = .ok stPrei)
    (hbi : blockedAt (mkCtx env query existing) stPrei.acceptedNames
      ((normName payload[i]).getD "") = false)
    (hsim : T ≤ env.sim ((normName payload[j]).getD "") ((normName payload[i]).getD ""))
    (hdb : ∀ cIdx rows, db cIdx rows = .error msg)
    (code : Nat) (resp : BulkResponse)
    (hrun : bulkImport env (.ok existing) db query (.arr payload) = .ok code resp) :
    (∃ o ∈ resp.results, o.index = i ∧ o.status = .failed msg) ∧
    (∃ o ∈ resp.results, o.index = j ∧ o.status = .skipped "similarity" (some T)) ∧
    (∀ o ∈ resp.results, ∀ id, o.status ≠ .created id) := by
  obtain ⟨payload1, existing1, st, insOuts, createdCount, hp1, hemp, hf, hscan, hins,
    hres, hsum, hcode⟩ :=
    bulkImport_ok_inv env (.ok existing) db query (.arr payload) code resp hrun
  have hpay : payload1 = payload := by
    have h3 : (some payload : Option (List RawSong)) = some payload1 := hp1
    injection h3 with h4
    exact h4.symm
  subst hpay
  have hex : existing1 = existing := by
    injection hf with h4
    exact h4.symm
  subst hex
  obtain ⟨⟨rowi, hrowi, hrowiname⟩, hskip⟩ := payload_conflict_order env query existing1
    payload1 T i j hallow hT hij hj hvi hvj stPrei hprei hbi hsim st hscan
  have hallfail := insertGo_all_fail db msg hdb st.toInsert.length 0 st.toInsert (le_refl _)
  have h4 : (Except.ok (insOuts, createdCount) : Except String (List Outcome × Nat)) =
      Except.ok (st.toInsert.map
        (fun e => (⟨e.1, some e.2.song_name, .failed msg⟩ : Outcome)), 0) :=
    hins.symm.trans hallfail
  have h5 : insOuts = st.toInsert.map
      (fun e => (⟨e.1, some e.2.song_name, .failed msg⟩ : Outcome)) := by
    injection h4 with h6
    exact congrArg Prod.fst h6
  refine ⟨?_, ?_, ?_⟩
  · refine ⟨⟨i, some rowi.song_name, .failed msg⟩, ?_, rfl, rfl⟩
    rw [hres]
    apply mem_sortByIndex.mpr
    apply List.mem_append_right
    rw [h5]
    exact List.mem_map.mpr ⟨(i, rowi), hrowi, rfl⟩
  · refine ⟨⟨j, normName payload1[j], .skipped "similarity" (some T)⟩, ?_, rfl, rfl⟩
    rw [hres]
    exact mem_sortByIndex.mpr (List.mem_append_left _ hskip)
  · intro o ho id hstat
    rw [hres] at ho
    rcases List.mem_append.mp (mem_sortByIndex.mp ho) with hmem | hmem
    · obtain ⟨δr, δt, hr, _, _, _, hstatuses⟩ :=
        scanFrom_shape (mkCtx env query existing1) payload1 0 ⟨[], [], []⟩ st hscan
      simp only [List.nil_append] at hr
      have hoδ : o ∈ δr := by rw [← hr]; exact hmem
      rcases hstatuses o hoδ with h2 | ⟨h2, _⟩ <;> rw [hstat] at h2 <;>
        exact absurd h2 (by simp)
    · rw [h5] at hmem
      obtain ⟨e, _, rfl⟩ := List.mem_map.mp hmem
      simp at hstat

theorem conflict_against_uncreated_name_witness :
    (∃ o ∈ ([⟨0, some "a", .failed "boom"⟩,
        ⟨1, some "a", .skipped "similarity" (some (4/5))⟩] : List Outcome),
      o.index = 0 ∧ o.status = .failed "boom") ∧
    (∃ o ∈ ([⟨0, some "a", .failed "boom"⟩,
        ⟨1, some "a", .skipped "similarity" (some (4/5))⟩] : List Outcome),
      o.index = 1 ∧ o.status = .skipped "similarity" (some (4/5))) ∧
    (∀ o ∈ ([⟨0, some "a", .failed "boom"⟩,
        ⟨1, some "a", .skipped "similarity" (some (4/5))⟩] : List Outcome),
      ∀ id, o.status ≠ .created id) := by
  have h := conflict_against_uncreated_name envX dbFail queryStrict [] [recA, recA2]
    (4/5) 0 1 "boom" rfl (by with_unfolding_all decide) (by decide) (by decide)
    (by with_unfolding_all decide) (by with_unfolding_all decide)
    ⟨[], [], []⟩ (by with_unfolding_all rfl) (by with_unfolding_all decide)
    (by with_unfolding_all decide) (fun _ _ => rfl) 200
    ⟨⟨2, 0, 1, 0, 1⟩, [⟨0, some "a", .failed "boom"⟩,
      ⟨1, some "a", .skipped "similarity" (some (4/5))⟩]⟩
    (by with_unfolding_all rfl)
  exact h

/-- C5: Insert failures are isolated per chunk.  Under whole-chunk semantics,
for every accepted record of the chunk at chunk offset `cI`: if that chunk's
insert fails, the record's unique outcome is `failed` with that chunk's error;
if that chunk's insert succeeds, the record's unique outcome is `created`.
Every chunk is processed — a failing chunk never aborts the others. -/
theorem chunk_failure_isolation
    (env : Env) (existing : List ExistingSong) (db : DB) (query : Query)
    (payload : List RawSong) (code : Nat) (resp : BulkResponse)
    (hdb : ∀ cIdx rows data, db cIdx rows = .ok data → data.length = rows.length)
    (st : ScanState)
    (hscan : scanFrom (mkCtx env query existing) 0 payload ⟨[], [], []⟩ = .ok st)
    (hrun : bulkImport env (.ok existing) db query (.arr payload) = .ok code resp) :
    ∀ (cI : Nat), ∀ e ∈ (st.toInsert.drop (BATCH * cI)).take BATCH,
      (∀ msg, db cI (((st.toInsert.drop (BATCH * cI)).take BATCH).map (fun y => y.2)) =
          .error msg →
        (∃ o ∈ resp.results, o.index = e.1 ∧ o.status = .failed msg) ∧
        (∀ o ∈ resp.results, o.index = e.1 → o.status = .failed msg)) ∧
      (∀ data, db cI (((st.toInsert.drop (BATCH * cI)).take BATCH).map (fun y => y.2)) =
          .ok data →
        (∃ o ∈ resp.results, o.index = e.1 ∧ ∃ id, o.status = .created id) ∧
        (∀ o ∈ resp.results, o.index = e.1 → ∃ id, o.status = .created id)) := by
  obtain ⟨payload1, existing1, st1, insOuts, createdCount, hp1, hemp, hf, hscan1, hins,
    hres, hsum, hcode⟩ :=
    bulkImport_ok_inv env (.ok existing) db query (.arr payload) code resp hrun
  have hpay : payload1 = payload := by
    have h3 : (some payload : Option (List RawSong)) = some payload1 := hp1
    injection h3 with h4
    exact h4.symm
  subst hpay
  have hex : existing1 = existing := by
    injection hf with h4
    exact h4.symm
  subst hex
  have hst : st1 = st := by
    have h3 := hscan1.symm.trans hscan
    injection h3
  subst hst
  intro cI e he
  have hspec := insertGo_chunk_spec db hdb st1.toInsert.length 0 st1.toInsert insOuts
    createdCount (le_refl _) hins cI e he
  rw [Nat.zero_add] at hspec
  obtain ⟨δr, δt, hr, ht, _, hperm, hstatuses⟩ :=
    scanFrom_shape (mkCtx env query existing1) payload1 0 ⟨[], [], []⟩ st1 hscan1
  simp only [List.nil_append] at hr ht
  obtain ⟨outs2, cnt2, hins2, hmap, _⟩ :=
    insertGo_ok db hdb st1.toInsert.length 0 st1.toInsert (le_refl _)
  have h5 : insOuts = outs2 := by
    have h4 : (Except.ok (insOuts, createdCount) : Except String (List Outcome × Nat)) =
        Except.ok (outs2, cnt2) := hins.symm.trans hins2
    injection h4 with h6
    exact congrArg Prod.fst h6
  have hidx : ((st1.results ++ insOuts).map (fun o => o.index)).Perm
      (List.range payload1.length) := by
    rw [List.map_append, h5, hmap, hr, ht, List.range_eq_range']
    exact hperm
  have hmapeq : resp.results.map (fun o => o.index) = List.range payload1.length := by
    rw [hres]
    exact sortByIndex_map_index_eq_range _ _ hidx
  have hinj := index_inj_of_perm_range
    (l := resp.results) (n := payload1.length) (by rw [hmapeq])
  constructor
  · intro msg hmsg
    have hmem0 : (⟨e.1, some e.2.song_name, .failed msg⟩ : Outcome) ∈ insOuts :=
      hspec.1 msg hmsg
    have hmemr : (⟨e.1, some e.2.song_name, .failed msg⟩ : Outcome) ∈ resp.results := by
      rw [hres]
      exact mem_sortByIndex.mpr (List.mem_append_right _ hmem0)
    refine ⟨⟨⟨e.1, some e.2.song_name, .failed msg⟩, hmemr, rfl, rfl⟩, ?_⟩
    intro o ho hoeq
    have h7 := hinj o ho _ hmemr hoeq
    rw [h7]
  · intro data hdata
    obtain ⟨d, _, hmem0⟩ := hspec.2 data hdata
    have hmemr : (⟨e.1, some d.song_name, .created d.song_id⟩ : Outcome) ∈ resp.results := by
      rw [hres]
      exact mem_sortByIndex.mpr (List.mem_append_right _ hmem0)
    refine ⟨⟨⟨e.1, some d.song_name, .created d.song_id⟩, hmemr, rfl, d.song_id, rfl⟩, ?_⟩
    intro o ho hoeq
    have h7 := hinj o ho _ hmemr hoeq
    rw [h7]
    exact ⟨d.song_id, rfl⟩

theorem chunk_failure_isolation_witness :
    (∃ o ∈ ([⟨0, some "a", .failed "boom"⟩] : List Outcome),
      o.index = 0 ∧ o.status = .failed "boom") ∧
    (∀ o ∈ ([⟨0, some "a", .failed "boom"⟩] : List Outcome),
      o.index = 0 → o.status = .failed "boom") := by
  have h := (chunk_failure_isolation envX [] dbFail {} [recA] 200
    ⟨⟨1, 0, 0, 0, 1⟩, [⟨0, some "a", .failed "boom"⟩]⟩
    (fun _ _ _ hcon => nomatch hcon)
    ⟨[], [(0, ⟨"a", .jobj 1, .jobj 2, "T0", "T0", "System", ""⟩)], ["a"]⟩
    (by with_unfolding_all rfl) (by with_unfolding_all rfl) 0
    (0, ⟨"a", .jobj 1, .jobj 2, "T0", "T0", "System", ""⟩)
    (by with_unfolding_all decide)).1 "boom" rfl
  exact h

end WorshipReady
